import Mathlib

/-!
Shallow embedding of the chess rules engine of the clichess repository
(crate `libs/game`).  The main embedding follows `src/libs/game/src/lib.rs`
(the `Game` struct and its move generation, check detection, castling,
execution and undo), together with the value types in `file.rs`, `rank.rs`,
`chess_index.rs`, `piece.rs` and `square.rs`.  A separate, older board
implementation (`src/libs/game/src/chess_board.rs`, the `ChessBoard` struct
with its embedded `previous` snapshot) is embedded further below under the
`CBoard` name.  Machine integers (u8/i32) are modelled as Nat/Int; the
bounded arithmetic of files and ranks (1..8) makes overflow unreachable in
every reached call.  Rust panics (`unwrap`, `expect`, `panic!`,
`unimplemented!`) are modelled by returning `none` from an `Option` result.
-/

/-- Color enum from lib.rs. -/
inductive Color where
  | black
  | white
deriving DecidableEq, Repr

/-- Function opponent of impl Color in lib.rs. -/
def Color.opponent : Color → Color
  | Color.black => Color.white
  | Color.white => Color.black

/-- PieceType enum from piece.rs. -/
inductive PieceType where
  | pawn
  | knight
  | bishop
  | rook
  | queen
  | king
deriving DecidableEq, Repr

/-- File enum from file.rs (the eight columns a..h). -/
inductive File where
  | a
  | b
  | c
  | d
  | e
  | f
  | g
  | h
deriving DecidableEq, Repr

/-- Numeric value of a file, as in impl From for u8 in file.rs (1-based). -/
def File.toNat : File → Nat
  | File.a => 1
  | File.b => 2
  | File.c => 3
  | File.d => 4
  | File.e => 5
  | File.f => 6
  | File.g => 7
  | File.h => 8

/-- Partial inverse of File.toNat, as in impl TryFrom u8 for File in file.rs. -/
def File.ofNat? : Nat → Option File
  | 1 => some File.a
  | 2 => some File.b
  | 3 => some File.c
  | 4 => some File.d
  | 5 => some File.e
  | 6 => some File.f
  | 7 => some File.g
  | 8 => some File.h
  | _ => none

/-- Saturating add of impl Add u8 for File in file.rs (off-board gives none). -/
def File.addn (fl : File) (n : Nat) : Option File :=
  File.ofNat? (fl.toNat + n)

/-- Checked sub of impl Sub u8 for File in file.rs (off-board gives none). -/
def File.subn (fl : File) (n : Nat) : Option File :=
  if fl.toNat < n then none else File.ofNat? (fl.toNat - n)

/-- Rank enum from rank.rs (the eight rows 1..8). -/
inductive Rank where
  | first
  | second
  | third
  | fourth
  | fifth
  | sixth
  | seventh
  | eighth
deriving DecidableEq, Repr

/-- Numeric value of a rank, as in impl From for u8 in rank.rs (1-based). -/
def Rank.toNat : Rank → Nat
  | Rank.first => 1
  | Rank.second => 2
  | Rank.third => 3
  | Rank.fourth => 4
  | Rank.fifth => 5
  | Rank.sixth => 6
  | Rank.seventh => 7
  | Rank.eighth => 8

/-- Partial inverse of Rank.toNat, as in impl TryFrom u8 for Rank in rank.rs. -/
def Rank.ofNat? : Nat → Option Rank
  | 1 => some Rank.first
  | 2 => some Rank.second
  | 3 => some Rank.third
  | 4 => some Rank.fourth
  | 5 => some Rank.fifth
  | 6 => some Rank.sixth
  | 7 => some Rank.seventh
  | 8 => some Rank.eighth
  | _ => none

/-- Saturating add of impl Add u8 for Rank in rank.rs. -/
def Rank.addn (r : Rank) (n : Nat) : Option Rank :=
  Rank.ofNat? (r.toNat + n)

/-- Checked sub of impl Sub u8 for Rank in rank.rs. -/
def Rank.subn (r : Rank) (n : Nat) : Option Rank :=
  if r.toNat < n then none else Rank.ofNat? (r.toNat - n)

/-- Signed add of impl Add i32 for Rank in rank.rs: a negative offset is
routed through the checked subtraction, a non-negative one through the
saturating addition.  The only offsets reached by the engine are -2..2. -/
def Rank.addInt (r : Rank) (i : Int) : Option Rank :=
  if i < 0 then Rank.subn r i.natAbs else Rank.addn r i.toNat

/-- Function is_pawn_starting_rank of impl Rank in rank.rs. -/
def Rank.is_pawn_starting_rank (r : Rank) (color : Color) : Bool :=
  match r, color with
  | Rank.second, Color.white => true
  | Rank.seventh, Color.black => true
  | _, _ => false

/-- Function is_pawn_promotion_rank of impl Rank in rank.rs: the rank one
step before the back rank of the opposing side. -/
def Rank.is_pawn_promotion_rank (r : Rank) (color : Color) : Bool :=
  match r, color with
  | Rank.second, Color.black => true
  | Rank.seventh, Color.white => true
  | _, _ => false

/-- Modelled from the spec: `Rank::is_en_passant_rank`, called by
`Game::valid_pawn_moves_from` in lib.rs but absent from the `rank.rs` in the
snapshot.  Per the spec, en passant applies when the moving pawn stands on
the rank where an enemy double-stepped pawn lands next to it: rank five for
White, rank four for Black (confirmed by the `test_en_passant` test, where a
White pawn on d5 captures en passant). -/
def Rank.is_en_passant_rank (r : Rank) (color : Color) : Bool :=
  match r, color with
  | Rank.fifth, Color.white => true
  | Rank.fourth, Color.black => true
  | _, _ => false

/-- ChessIndex from chess_index.rs: a (file, rank) pair naming a square. -/
structure ChessIndex where
  file : File
  rank : Rank
deriving DecidableEq, Repr

/-- Function linear_value of impl ChessIndex in chess_index.rs:
the row-major position 8*(rank-1)+(file-1) inside the 64-slot array. -/
def ChessIndex.linear (i : ChessIndex) : Nat :=
  8 * (i.rank.toNat - 1) + (i.file.toNat - 1)

/-- TryFrom (i32, i32) for ChessIndex in chess_index.rs: both coordinates
must be representable as u8 and lie in 1..8. -/
def ChessIndex.try_from_pair (x y : Int) : Option ChessIndex :=
  if 0 ≤ x ∧ 0 ≤ y then
    match File.ofNat? x.toNat, Rank.ofNat? y.toNat with
    | some fl, some r => some ⟨fl, r⟩
    | _, _ => none
  else none

/-- Piece from piece.rs: a kind, a color and the list of squares the piece
has occupied (appended on every placement; see the board operations). -/
structure Piece where
  piece_type : PieceType
  color : Color
  history : List ChessIndex
deriving DecidableEq, Repr

/-- Function new of impl Piece in piece.rs: a fresh piece with empty history. -/
def Piece.new (t : PieceType) (c : Color) : Piece :=
  ⟨t, c, []⟩

/-- Modelled from the spec: `Piece::has_made_move`, called by
`Game::can_castle` but absent from the `piece.rs` in the snapshot.  A piece
is placed on its initial square with a one-element history (the
`test_move_history` test shows `[E2]` for an unmoved pawn), so a piece has
made a move exactly when its history holds more than one square. -/
def Piece.has_made_move (p : Piece) : Bool :=
  1 < p.history.length

/-- Modelled from the spec: `Piece::previous_index`, called by
`Game::valid_pawn_moves_from` but absent from the `piece.rs` in the
snapshot.  It is the square the piece occupied before its current one, the
second-to-last history entry, when the piece has made a move. -/
def Piece.previous_index (p : Piece) : Option ChessIndex :=
  if 1 < p.history.length then p.history.get? (p.history.length - 2) else none

/-- Modelled from the spec: the board of the current `Game` in lib.rs (the
reworked `ChessBoard`, whose declaration is absent from the snapshot; the
`chess_board.rs` present there is the older board embedded below as
`CBoard`).  Per the spec it is a fixed 64-slot array of optional pieces,
indexed by `ChessIndex::linear_value`, and pure storage. -/
abbrev Board := List (Option Piece)

/-- Reading a square of the board (indexing as in chess_board.rs). -/
def Board.piece_at (b : Board) (i : ChessIndex) : Option Piece :=
  (b.getD i.linear none)

/-- Modelled from the spec: `ChessBoard::set_piece` of the reworked board
used by `Game` (absent from the snapshot).  Placing a piece records the
square in the piece history (the lib.rs tests `test_move_history` style
assertions, e.g. a castled rook having history `[H1, F1]`, pin this down)
and stores it in the slot. -/
def Board.set_piece (b : Board) (i : ChessIndex) (p : Piece) : Board :=
  b.set i.linear (some { p with history := p.history ++ [i] })

/-- Modelled from the spec: `ChessBoard::take_piece` / `Square::take_piece`
of the reworked board used by `Game` (absent from the snapshot): remove and
return the occupant of a square. -/
def Board.take_at (b : Board) (i : ChessIndex) : Option Piece × Board :=
  (b.piece_at i, b.set i.linear none)

/-- Board left behind by Square::take_piece: the slot is emptied.  The
executors read the occupant with piece_at and clear it with clear_at, the
two halves of take_piece. -/
def Board.clear_at (b : Board) (i : ChessIndex) : Board :=
  b.set i.linear none

/-- Modelled from the spec: the reworked `ChessBoard::default` is the empty
board (the `test_pawn_promotion_2` test assigns it and then places five
pieces on an otherwise empty board). -/
def Board.default : Board := List.replicate 64 none

/-- Square constant from consts.rs. -/
def A1 : ChessIndex := ⟨File.a, Rank.first⟩
/-- Square constant from consts.rs. -/
def A2 : ChessIndex := ⟨File.a, Rank.second⟩
/-- Square constant from consts.rs. -/
def A3 : ChessIndex := ⟨File.a, Rank.third⟩
/-- Square constant from consts.rs. -/
def A4 : ChessIndex := ⟨File.a, Rank.fourth⟩
/-- Square constant from consts.rs. -/
def A5 : ChessIndex := ⟨File.a, Rank.fifth⟩
/-- Square constant from consts.rs. -/
def A6 : ChessIndex := ⟨File.a, Rank.sixth⟩
/-- Square constant from consts.rs. -/
def A7 : ChessIndex := ⟨File.a, Rank.seventh⟩
/-- Square constant from consts.rs. -/
def A8 : ChessIndex := ⟨File.a, Rank.eighth⟩
/-- Square constant from consts.rs. -/
def B1 : ChessIndex := ⟨File.b, Rank.first⟩
/-- Square constant from consts.rs. -/
def B2 : ChessIndex := ⟨File.b, Rank.second⟩
/-- Square constant from consts.rs. -/
def B3 : ChessIndex := ⟨File.b, Rank.third⟩
/-- Square constant from consts.rs. -/
def B4 : ChessIndex := ⟨File.b, Rank.fourth⟩
/-- Square constant from consts.rs. -/
def B5 : ChessIndex := ⟨File.b, Rank.fifth⟩
/-- Square constant from consts.rs. -/
def B6 : ChessIndex := ⟨File.b, Rank.sixth⟩
/-- Square constant from consts.rs. -/
def B7 : ChessIndex := ⟨File.b, Rank.seventh⟩
/-- Square constant from consts.rs. -/
def B8 : ChessIndex := ⟨File.b, Rank.eighth⟩
/-- Square constant from consts.rs. -/
def C1 : ChessIndex := ⟨File.c, Rank.first⟩
/-- Square constant from consts.rs. -/
def C2 : ChessIndex := ⟨File.c, Rank.second⟩
/-- Square constant from consts.rs. -/
def C3 : ChessIndex := ⟨File.c, Rank.third⟩
/-- Square constant from consts.rs. -/
def C4 : ChessIndex := ⟨File.c, Rank.fourth⟩
/-- Square constant from consts.rs. -/
def C5 : ChessIndex := ⟨File.c, Rank.fifth⟩
/-- Square constant from consts.rs. -/
def C6 : ChessIndex := ⟨File.c, Rank.sixth⟩
/-- Square constant from consts.rs. -/
def C7 : ChessIndex := ⟨File.c, Rank.seventh⟩
/-- Square constant from consts.rs. -/
def C8 : ChessIndex := ⟨File.c, Rank.eighth⟩
/-- Square constant from consts.rs. -/
def D1 : ChessIndex := ⟨File.d, Rank.first⟩
/-- Square constant from consts.rs. -/
def D2 : ChessIndex := ⟨File.d, Rank.second⟩
/-- Square constant from consts.rs. -/
def D3 : ChessIndex := ⟨File.d, Rank.third⟩
/-- Square constant from consts.rs. -/
def D4 : ChessIndex := ⟨File.d, Rank.fourth⟩
/-- Square constant from consts.rs. -/
def D5 : ChessIndex := ⟨File.d, Rank.fifth⟩
/-- Square constant from consts.rs. -/
def D6 : ChessIndex := ⟨File.d, Rank.sixth⟩
/-- Square constant from consts.rs. -/
def D7 : ChessIndex := ⟨File.d, Rank.seventh⟩
/-- Square constant from consts.rs. -/
def D8 : ChessIndex := ⟨File.d, Rank.eighth⟩
/-- Square constant from consts.rs. -/
def E1 : ChessIndex := ⟨File.e, Rank.first⟩
/-- Square constant from consts.rs. -/
def E2 : ChessIndex := ⟨File.e, Rank.second⟩
/-- Square constant from consts.rs. -/
def E3 : ChessIndex := ⟨File.e, Rank.third⟩
/-- Square constant from consts.rs. -/
def E4 : ChessIndex := ⟨File.e, Rank.fourth⟩
/-- Square constant from consts.rs. -/
def E5 : ChessIndex := ⟨File.e, Rank.fifth⟩
/-- Square constant from consts.rs. -/
def E6 : ChessIndex := ⟨File.e, Rank.sixth⟩
/-- Square constant from consts.rs. -/
def E7 : ChessIndex := ⟨File.e, Rank.seventh⟩
/-- Square constant from consts.rs. -/
def E8 : ChessIndex := ⟨File.e, Rank.eighth⟩
/-- Square constant from consts.rs. -/
def F1 : ChessIndex := ⟨File.f, Rank.first⟩
/-- Square constant from consts.rs. -/
def F2 : ChessIndex := ⟨File.f, Rank.second⟩
/-- Square constant from consts.rs. -/
def F3 : ChessIndex := ⟨File.f, Rank.third⟩
/-- Square constant from consts.rs. -/
def F4 : ChessIndex := ⟨File.f, Rank.fourth⟩
/-- Square constant from consts.rs. -/
def F5 : ChessIndex := ⟨File.f, Rank.fifth⟩
/-- Square constant from consts.rs. -/
def F6 : ChessIndex := ⟨File.f, Rank.sixth⟩
/-- Square constant from consts.rs. -/
def F7 : ChessIndex := ⟨File.f, Rank.seventh⟩
/-- Square constant from consts.rs. -/
def F8 : ChessIndex := ⟨File.f, Rank.eighth⟩
/-- Square constant from consts.rs. -/
def G1 : ChessIndex := ⟨File.g, Rank.first⟩
/-- Square constant from consts.rs. -/
def G2 : ChessIndex := ⟨File.g, Rank.second⟩
/-- Square constant from consts.rs. -/
def G3 : ChessIndex := ⟨File.g, Rank.third⟩
/-- Square constant from consts.rs. -/
def G4 : ChessIndex := ⟨File.g, Rank.fourth⟩
/-- Square constant from consts.rs. -/
def G5 : ChessIndex := ⟨File.g, Rank.fifth⟩
/-- Square constant from consts.rs. -/
def G6 : ChessIndex := ⟨File.g, Rank.sixth⟩
/-- Square constant from consts.rs. -/
def G7 : ChessIndex := ⟨File.g, Rank.seventh⟩
/-- Square constant from consts.rs. -/
def G8 : ChessIndex := ⟨File.g, Rank.eighth⟩
/-- Square constant from consts.rs. -/
def H1 : ChessIndex := ⟨File.h, Rank.first⟩
/-- Square constant from consts.rs. -/
def H2 : ChessIndex := ⟨File.h, Rank.second⟩
/-- Square constant from consts.rs. -/
def H3 : ChessIndex := ⟨File.h, Rank.third⟩
/-- Square constant from consts.rs. -/
def H4 : ChessIndex := ⟨File.h, Rank.fourth⟩
/-- Square constant from consts.rs. -/
def H5 : ChessIndex := ⟨File.h, Rank.fifth⟩
/-- Square constant from consts.rs. -/
def H6 : ChessIndex := ⟨File.h, Rank.sixth⟩
/-- Square constant from consts.rs. -/
def H7 : ChessIndex := ⟨File.h, Rank.seventh⟩
/-- Square constant from consts.rs. -/
def H8 : ChessIndex := ⟨File.h, Rank.eighth⟩

/-- List produced by FileIter::start_at of file.rs: the files from the given
one upward (inclusive). -/
def File.iterUp : File → List File
  | File.a => [File.a, File.b, File.c, File.d, File.e, File.f, File.g, File.h]
  | File.b => [File.b, File.c, File.d, File.e, File.f, File.g, File.h]
  | File.c => [File.c, File.d, File.e, File.f, File.g, File.h]
  | File.d => [File.d, File.e, File.f, File.g, File.h]
  | File.e => [File.e, File.f, File.g, File.h]
  | File.f => [File.f, File.g, File.h]
  | File.g => [File.g, File.h]
  | File.h => [File.h]

/-- List produced by FileIter::start_at(...).rev() of file.rs: the files
from the given one downward (inclusive). -/
def File.iterDown : File → List File
  | File.a => [File.a]
  | File.b => [File.b, File.a]
  | File.c => [File.c, File.b, File.a]
  | File.d => [File.d, File.c, File.b, File.a]
  | File.e => [File.e, File.d, File.c, File.b, File.a]
  | File.f => [File.f, File.e, File.d, File.c, File.b, File.a]
  | File.g => [File.g, File.f, File.e, File.d, File.c, File.b, File.a]
  | File.h => [File.h, File.g, File.f, File.e, File.d, File.c, File.b, File.a]

/-- List produced by RankIter::start_at of rank.rs: the ranks from the given
one upward (inclusive). -/
def Rank.iterUp : Rank → List Rank
  | Rank.first => [Rank.first, Rank.second, Rank.third, Rank.fourth, Rank.fifth,
      Rank.sixth, Rank.seventh, Rank.eighth]
  | Rank.second => [Rank.second, Rank.third, Rank.fourth, Rank.fifth, Rank.sixth,
      Rank.seventh, Rank.eighth]
  | Rank.third => [Rank.third, Rank.fourth, Rank.fifth, Rank.sixth, Rank.seventh,
      Rank.eighth]
  | Rank.fourth => [Rank.fourth, Rank.fifth, Rank.sixth, Rank.seventh, Rank.eighth]
  | Rank.fifth => [Rank.fifth, Rank.sixth, Rank.seventh, Rank.eighth]
  | Rank.sixth => [Rank.sixth, Rank.seventh, Rank.eighth]
  | Rank.seventh => [Rank.seventh, Rank.eighth]
  | Rank.eighth => [Rank.eighth]

/-- List produced by RankIter::start_at(...).rev() of rank.rs: the ranks
from the given one downward (inclusive). -/
def Rank.iterDown : Rank → List Rank
  | Rank.first => [Rank.first]
  | Rank.second => [Rank.second, Rank.first]
  | Rank.third => [Rank.third, Rank.second, Rank.first]
  | Rank.fourth => [Rank.fourth, Rank.third, Rank.second, Rank.first]
  | Rank.fifth => [Rank.fifth, Rank.fourth, Rank.third, Rank.second, Rank.first]
  | Rank.sixth => [Rank.sixth, Rank.fifth, Rank.fourth, Rank.third, Rank.second,
      Rank.first]
  | Rank.seventh => [Rank.seventh, Rank.sixth, Rank.fifth, Rank.fourth, Rank.third,
      Rank.second, Rank.first]
  | Rank.eighth => [Rank.eighth, Rank.seventh, Rank.sixth, Rank.fifth, Rank.fourth,
      Rank.third, Rank.second, Rank.first]

/-- Function indices_between of impl ChessIndex in chess_index.rs: the
inclusive straight segment from one square to another on a shared file or
rank (empty when the squares share neither). -/
def ChessIndex.indices_between (src dst : ChessIndex) : List ChessIndex :=
  if src.file = dst.file then
    if src.rank.toNat ≤ dst.rank.toNat then
      ((src.rank.iterUp.takeWhile (fun r => r.toNat ≤ dst.rank.toNat)).map
        (fun r => (⟨src.file, r⟩ : ChessIndex)))
    else
      ((src.rank.iterDown.takeWhile (fun r => dst.rank.toNat ≤ r.toNat)).map
        (fun r => (⟨src.file, r⟩ : ChessIndex)))
  else if src.rank = dst.rank then
    if src.file.toNat ≤ dst.file.toNat then
      ((src.file.iterUp.takeWhile (fun fl => fl.toNat ≤ dst.file.toNat)).map
        (fun fl => (⟨fl, src.rank⟩ : ChessIndex)))
    else
      ((src.file.iterDown.takeWhile (fun fl => dst.file.toNat ≤ fl.toNat)).map
        (fun fl => (⟨fl, src.rank⟩ : ChessIndex)))
  else []

/-- Modelled from the spec: `RegularMove` of the reworked chess_move.rs used
by `Game` in lib.rs (absent from the snapshot; the chess_move.rs present
there belongs to the older board).  Per the spec a Regular move is just a
source and a destination square. -/
structure RegularMove where
  from_idx : ChessIndex
  to_idx : ChessIndex
deriving DecidableEq, Repr

/-- CastleMove from chess_move.rs: king and rook sources and destinations. -/
structure CastleMove where
  king_from : ChessIndex
  king_to : ChessIndex
  rook_from : ChessIndex
  rook_to : ChessIndex
deriving DecidableEq, Repr

/-- Modelled from the spec: `PromotionMove` of the reworked chess_move.rs
used by `Game` (absent from the snapshot): source, destination and the kind
promoted to (`promotion_piece` is handed to `Piece::new` in
`execute_promotion_move`, so it is a kind). -/
structure PromotionMove where
  from_idx : ChessIndex
  to_idx : ChessIndex
  promotion_piece : PieceType
deriving DecidableEq, Repr

/-- Modelled from the spec: `EnPassantMove` of the reworked chess_move.rs
used by `Game` (absent from the snapshot): source, destination and the
square of the captured pawn (which differs from the destination). -/
structure EnPassantMove where
  from_idx : ChessIndex
  to_idx : ChessIndex
  taken_pawn_idx : ChessIndex
deriving DecidableEq, Repr

/-- Modelled from the spec: the reworked `ChessMove` sum type used by `Game`
in lib.rs (absent from the snapshot), with the four variants named by the
spec data model: Regular, Castle, Promotion, EnPassant. -/
inductive ChessMove where
  | regular (rm : RegularMove)
  | castle (cm : CastleMove)
  | promotion (pm : PromotionMove)
  | enPassant (em : EnPassantMove)
deriving DecidableEq, Repr

/-- Constructor ChessMove::regular of chess_move.rs. -/
def ChessMove.mkRegular (src dst : ChessIndex) : ChessMove :=
  ChessMove.regular ⟨src, dst⟩

/-- Constructor ChessMove::en_passant of the reworked chess_move.rs. -/
def ChessMove.mkEnPassant (src dst taken : ChessIndex) : ChessMove :=
  ChessMove.enPassant ⟨src, dst, taken⟩

/-- Constructor ChessMove::promotions of chess_move.rs: one promotion per
promotable kind, in the source order Knight, Rook, Queen, Bishop. -/
def ChessMove.promotions (src dst : ChessIndex) : List ChessMove :=
  [ChessMove.promotion ⟨src, dst, PieceType.knight⟩,
   ChessMove.promotion ⟨src, dst, PieceType.rook⟩,
   ChessMove.promotion ⟨src, dst, PieceType.queen⟩,
   ChessMove.promotion ⟨src, dst, PieceType.bishop⟩]

/-- Boolean test for the Castle variant of ChessMove. -/
def ChessMove.is_castle : ChessMove → Bool
  | ChessMove.castle _ => true
  | _ => false

/-- Game struct from lib.rs: current board, both stored king squares, both
capture lists and the undo history of board snapshots. -/
structure Game where
  board : Board
  white_king : ChessIndex
  black_king : ChessIndex
  white_taken : List Piece
  black_taken : List Piece
  history : List Board
deriving DecidableEq, Repr

/-- Stored king square of a Game for a color (the white_king / black_king
field selected as in is_king_checked of lib.rs). -/
def Game.king_field (g : Game) : Color → ChessIndex
  | Color.black => g.black_king
  | Color.white => g.white_king

/-- Diagonal scan cells of the detectors in lib.rs: increasing file and
rank, the zipped iterators skipping the start square. -/
def ChessIndex.ray_ne (i : ChessIndex) : List ChessIndex :=
  (((i.file.iterUp.zip i.rank.iterUp).map (fun pr => (⟨pr.1, pr.2⟩ : ChessIndex))).drop 1)

/-- Diagonal scan cells: increasing file, decreasing rank. -/
def ChessIndex.ray_se (i : ChessIndex) : List ChessIndex :=
  (((i.file.iterUp.zip i.rank.iterDown).map (fun pr => (⟨pr.1, pr.2⟩ : ChessIndex))).drop 1)

/-- Diagonal scan cells: decreasing file, increasing rank. -/
def ChessIndex.ray_nw (i : ChessIndex) : List ChessIndex :=
  (((i.file.iterDown.zip i.rank.iterUp).map (fun pr => (⟨pr.1, pr.2⟩ : ChessIndex))).drop 1)

/-- Diagonal scan cells: decreasing file and rank. -/
def ChessIndex.ray_sw (i : ChessIndex) : List ChessIndex :=
  (((i.file.iterDown.zip i.rank.iterDown).map (fun pr => (⟨pr.1, pr.2⟩ : ChessIndex))).drop 1)

/-- Straight scan cells: increasing file on the same rank. -/
def ChessIndex.ray_east (i : ChessIndex) : List ChessIndex :=
  ((i.file.iterUp.map (fun fl => (⟨fl, i.rank⟩ : ChessIndex))).drop 1)

/-- Straight scan cells: decreasing file on the same rank. -/
def ChessIndex.ray_west (i : ChessIndex) : List ChessIndex :=
  ((i.file.iterDown.map (fun fl => (⟨fl, i.rank⟩ : ChessIndex))).drop 1)

/-- Straight scan cells: increasing rank on the same file. -/
def ChessIndex.ray_north (i : ChessIndex) : List ChessIndex :=
  ((i.rank.iterUp.map (fun r => (⟨i.file, r⟩ : ChessIndex))).drop 1)

/-- Straight scan cells: decreasing rank on the same file. -/
def ChessIndex.ray_south (i : ChessIndex) : List ChessIndex :=
  ((i.rank.iterDown.map (fun r => (⟨i.file, r⟩ : ChessIndex))).drop 1)

/-- Inner loop shared by the sliding-attack detectors of lib.rs: walk the
given cells; at the first occupied square report it when the occupant
matches the wanted predicate, otherwise stop (the ray is blocked). -/
def Board.scan_ray (b : Board) (cells : List ChessIndex) (pred : Piece → Bool) :
    Option ChessIndex :=
  match cells with
  | [] => none
  | i :: rest =>
    match b.piece_at i with
    | some p => if pred p then some i else none
    | none => b.scan_ray rest pred

/-- Inner loop shared by the offset-based detectors of lib.rs: return the
first in-board offset target whose occupant matches the predicate (an
unoccupied or mismatching target is skipped, per `unwrap_or(false)`). -/
def Board.first_offset_hit (b : Board) (start : ChessIndex) (offs : List (Int × Int))
    (pred : Piece → Bool) : Option ChessIndex :=
  match offs with
  | [] => none
  | (fo, ro) :: rest =>
    match ChessIndex.try_from_pair ((start.file.toNat : Int) + fo)
        ((start.rank.toNat : Int) + ro) with
    | some i =>
      if ((b.piece_at i).map pred).getD false then some i
      else b.first_offset_hit start rest pred
    | none => b.first_offset_hit start rest pred

/-- Function is_checked_by_bishop of impl Game in lib.rs: the four diagonal
scans in source order. -/
def Game.is_checked_by_bishop (g : Game) (king_index : ChessIndex) (king_color : Color) :
    Option ChessIndex :=
  let pred := fun (p : Piece) =>
    p.piece_type == PieceType.bishop && p.color == king_color.opponent
  (g.board.scan_ray king_index.ray_ne pred).orElse (fun _ =>
  (g.board.scan_ray king_index.ray_se pred).orElse (fun _ =>
  (g.board.scan_ray king_index.ray_nw pred).orElse (fun _ =>
  (g.board.scan_ray king_index.ray_sw pred))))

/-- Function is_checked_by_pawn of impl Game in lib.rs: for a white target
look for a black pawn one rank above on an adjacent file, and symmetrically
for a black target. -/
def Game.is_checked_by_pawn (g : Game) (king_index : ChessIndex) (king_color : Color) :
    Option ChessIndex :=
  let pred := fun (p : Piece) =>
    p.piece_type == PieceType.pawn && p.color == king_color.opponent
  match king_color with
  | Color.white => g.board.first_offset_hit king_index [(-1, 1), (1, 1)] pred
  | Color.black => g.board.first_offset_hit king_index [(-1, -1), (1, -1)] pred

/-- Knight offsets shared by detection and generation in lib.rs. -/
def knightOffsets : List (Int × Int) :=
  [(2, 1), (2, -1), (-2, 1), (-2, -1), (1, 2), (1, -2), (-1, 2), (-1, -2)]

/-- Function is_checked_by_knight of impl Game in lib.rs. -/
def Game.is_checked_by_knight (g : Game) (king_index : ChessIndex) (king_color : Color) :
    Option ChessIndex :=
  let pred := fun (p : Piece) =>
    p.piece_type == PieceType.knight && p.color == king_color.opponent
  g.board.first_offset_hit king_index knightOffsets pred

/-- Function is_checked_by_rook of impl Game in lib.rs: the four straight
scans in source order. -/
def Game.is_checked_by_rook (g : Game) (king_index : ChessIndex) (king_color : Color) :
    Option ChessIndex :=
  let pred := fun (p : Piece) =>
    p.piece_type == PieceType.rook && p.color == king_color.opponent
  (g.board.scan_ray king_index.ray_east pred).orElse (fun _ =>
  (g.board.scan_ray king_index.ray_west pred).orElse (fun _ =>
  (g.board.scan_ray king_index.ray_north pred).orElse (fun _ =>
  (g.board.scan_ray king_index.ray_south pred))))

/-- Function is_checked_by_queen of impl Game in lib.rs: the four straight
and the four diagonal scans in source order. -/
def Game.is_checked_by_queen (g : Game) (king_index : ChessIndex) (king_color : Color) :
    Option ChessIndex :=
  let pred := fun (p : Piece) =>
    p.piece_type == PieceType.queen && p.color == king_color.opponent
  (g.board.scan_ray king_index.ray_east pred).orElse (fun _ =>
  (g.board.scan_ray king_index.ray_west pred).orElse (fun _ =>
  (g.board.scan_ray king_index.ray_north pred).orElse (fun _ =>
  (g.board.scan_ray king_index.ray_south pred).orElse (fun _ =>
  (g.board.scan_ray king_index.ray_ne pred).orElse (fun _ =>
  (g.board.scan_ray king_index.ray_se pred).orElse (fun _ =>
  (g.board.scan_ray king_index.ray_nw pred).orElse (fun _ =>
  (g.board.scan_ray king_index.ray_sw pred))))))))

/-- Function is_checked of impl Game in lib.rs: a square is reported checked
when any of the knight, pawn, bishop, rook or queen detectors (tried in that
order) fires.  No detector looks for the opposing king. -/
def Game.is_checked (g : Game) (index : ChessIndex) (color : Color) : Bool :=
  (g.is_checked_by_knight index color).isSome ||
  (g.is_checked_by_pawn index color).isSome ||
  (g.is_checked_by_bishop index color).isSome ||
  (g.is_checked_by_rook index color).isSome ||
  (g.is_checked_by_queen index color).isSome

/-- Function is_king_checked of impl Game in lib.rs: is_checked at the
stored king square of the color. -/
def Game.is_king_checked (g : Game) (color : Color) : Bool :=
  g.is_checked (g.king_field color) color

/-- Walk of moves_to_opponents_piece in lib.rs: the squares reached by
repeatedly adding the step to the start, skipping the start itself and
stopping at the first off-board coordinate.  The source iterates an
unbounded counter; since the only directions passed are nonzero, eight
steps bound the walk, which the fuel argument mirrors. -/
def stepRayAux (startF startR fs rs : Int) (n : Nat) (fuel : Nat) : List ChessIndex :=
  match fuel with
  | 0 => []
  | fuel' + 1 =>
    match ChessIndex.try_from_pair (startF + n * fs) (startR + n * rs) with
    | none => []
    | some i => i :: stepRayAux startF startR fs rs (n + 1) fuel'

/-- Cells walked by moves_to_opponents_piece of lib.rs for a direction. -/
def ChessIndex.step_ray (start : ChessIndex) (fs rs : Int) : List ChessIndex :=
  stepRayAux (start.file.toNat : Int) (start.rank.toNat : Int) fs rs 1 8

/-- Loop body of moves_to_opponents_piece in lib.rs: move onto every empty
cell, stop at the first occupied one and include it only when it belongs to
the opponent. -/
def movesAlongAux (b : Board) (start : ChessIndex) (cells : List ChessIndex)
    (color : Color) : List ChessMove :=
  match cells with
  | [] => []
  | i :: rest =>
    match b.piece_at i with
    | some p =>
      if p.color == color.opponent then [ChessMove.mkRegular start i] else []
    | none => ChessMove.mkRegular start i :: movesAlongAux b start rest color

/-- Function moves_to_opponents_piece of impl Game in lib.rs. -/
def Game.moves_to_opponents_piece (g : Game) (start : ChessIndex) (fs rs : Int)
    (color : Color) : List ChessMove :=
  movesAlongAux g.board start (start.step_ray fs rs) color

/-- Function valid_rook_moves_from of impl Game in lib.rs: the four straight
directions in source order. -/
def Game.valid_rook_moves_from (g : Game) (from_index : ChessIndex) (color : Color) :
    List ChessMove :=
  g.moves_to_opponents_piece from_index 0 1 color ++
  g.moves_to_opponents_piece from_index 0 (-1) color ++
  g.moves_to_opponents_piece from_index 1 0 color ++
  g.moves_to_opponents_piece from_index (-1) 0 color

/-- Function valid_bishop_moves_from of impl Game in lib.rs: the four
diagonal directions in source order. -/
def Game.valid_bishop_moves_from (g : Game) (from_index : ChessIndex) (color : Color) :
    List ChessMove :=
  g.moves_to_opponents_piece from_index 1 1 color ++
  g.moves_to_opponents_piece from_index 1 (-1) color ++
  g.moves_to_opponents_piece from_index (-1) 1 color ++
  g.moves_to_opponents_piece from_index (-1) (-1) color

/-- Function valid_queen_moves_from of impl Game in lib.rs: rook moves then
bishop moves. -/
def Game.valid_queen_moves_from (g : Game) (from_index : ChessIndex) (color : Color) :
    List ChessMove :=
  g.valid_rook_moves_from from_index color ++ g.valid_bishop_moves_from from_index color

/-- Loop body of valid_knight_moves_from in lib.rs: each in-board offset
target is taken unless a piece of the own color stands there. -/
def offsetMovesAux (b : Board) (src : ChessIndex) (offs : List (Int × Int))
    (color : Color) : List ChessMove :=
  match offs with
  | [] => []
  | (fo, ro) :: rest =>
    match ChessIndex.try_from_pair ((src.file.toNat : Int) + fo)
        ((src.rank.toNat : Int) + ro) with
    | some i =>
      (match b.piece_at i with
       | some p => if p.color == color then [] else [ChessMove.mkRegular src i]
       | none => [ChessMove.mkRegular src i]) ++ offsetMovesAux b src rest color
    | none => offsetMovesAux b src rest color

/-- Function valid_knight_moves_from of impl Game in lib.rs. -/
def Game.valid_knight_moves_from (g : Game) (from_index : ChessIndex) (color : Color) :
    List ChessMove :=
  offsetMovesAux g.board from_index knightOffsets color

/-- Helper combining an optional file and rank into an optional square, as
the destructured if-lets of valid_king_moves_from in lib.rs do. -/
def mkIdx2 (fl? : Option File) (r? : Option Rank) : Option ChessIndex :=
  match fl?, r? with
  | some fl, some r => some ⟨fl, r⟩
  | _, _ => none

/-- One branch of valid_king_moves_from in lib.rs: an in-board destination
is taken unless a piece of the own color stands there. -/
def kingStep (b : Board) (src : ChessIndex) (dst? : Option ChessIndex)
    (color : Color) : List ChessMove :=
  match dst? with
  | none => []
  | some dst =>
    match b.piece_at dst with
    | some p => if p.color == color then [] else [ChessMove.mkRegular src dst]
    | none => [ChessMove.mkRegular src dst]

/-- Function valid_king_moves_from of impl Game in lib.rs: the eight
one-step branches in source order.  The function produces Regular moves
only; it never emits a Castle move. -/
def Game.valid_king_moves_from (g : Game) (src : ChessIndex) (color : Color) :
    List ChessMove :=
  kingStep g.board src (mkIdx2 (src.file.addn 1) (some src.rank)) color ++
  kingStep g.board src (mkIdx2 (src.file.subn 1) (some src.rank)) color ++
  kingStep g.board src (mkIdx2 (some src.file) (src.rank.addn 1)) color ++
  kingStep g.board src (mkIdx2 (some src.file) (src.rank.subn 1)) color ++
  kingStep g.board src (mkIdx2 (src.file.addn 1) (src.rank.addn 1)) color ++
  kingStep g.board src (mkIdx2 (src.file.addn 1) (src.rank.subn 1)) color ++
  kingStep g.board src (mkIdx2 (src.file.subn 1) (src.rank.addn 1)) color ++
  kingStep g.board src (mkIdx2 (src.file.subn 1) (src.rank.subn 1)) color

/-- Promotion-capture loop of valid_pawn_moves_from in lib.rs: for each
diagonal holding an opponent piece, append the four promotion moves. -/
def pawnPromoCaptures (b : Board) (src : ChessIndex) (color : Color) :
    List ChessIndex → List ChessMove
  | [] => []
  | d :: rest =>
    (match b.piece_at d with
     | some p =>
       if p.color == color.opponent then ChessMove.promotions src d else []
     | none => []) ++ pawnPromoCaptures b src color rest

/-- Diagonal-capture loop of valid_pawn_moves_from in lib.rs: for each
diagonal holding an opponent piece, append a regular capture. -/
def pawnDiagCaptures (b : Board) (src : ChessIndex) (color : Color) :
    List ChessIndex → List ChessMove
  | [] => []
  | d :: rest =>
    (match b.piece_at d with
     | some p =>
       if p.color == color.opponent then [ChessMove.mkRegular src d] else []
     | none => []) ++ pawnDiagCaptures b src color rest

/-- Forward part of the non-promotion branch of valid_pawn_moves_from in
lib.rs: one step onto an empty square, and from the starting rank also two
steps when both squares are empty.  The source unwraps the two-step rank
with an expect, modelled as the none result. -/
def pawnForward (b : Board) (src forward_idx : ChessIndex) (forward_offset : Int)
    (color : Color) : Option (List ChessMove) :=
  if (b.piece_at forward_idx).isNone then
    if src.rank.is_pawn_starting_rank color then
      match src.rank.addInt (2 * forward_offset) with
      | none => none
      | some rr =>
        if (b.piece_at ⟨src.file, rr⟩).isNone then
          some [ChessMove.mkRegular src forward_idx,
                ChessMove.mkRegular src ⟨src.file, rr⟩]
        else some [ChessMove.mkRegular src forward_idx]
    else some [ChessMove.mkRegular src forward_idx]
  else some []

/-- En passant loop of valid_pawn_moves_from in lib.rs: for each lateral
neighbour holding an enemy pawn whose previous square lies two ranks ahead
of the moving pawn, emit an en passant move onto the square diagonally
ahead.  The expects and the unwrap of the source are modelled as none. -/
def pawnEnPassantLoop (b : Board) (src : ChessIndex) (off : Int) (color : Color) :
    List ChessIndex → Option (List ChessMove)
  | [] => some []
  | other :: rest =>
    match b.piece_at other with
    | some other_piece =>
      if other_piece.piece_type == PieceType.pawn &&
          other_piece.color == color.opponent then
        match other_piece.previous_index with
        | none => none
        | some prev =>
          match src.rank.addInt (2 * off) with
          | none => none
          | some two_fwd =>
            if prev.rank = two_fwd then
              match other.rank.addInt off with
              | none => none
              | some tor =>
                (pawnEnPassantLoop b src off color rest).map
                  (fun rest' =>
                    ChessMove.mkEnPassant src ⟨other.file, tor⟩ other :: rest')
            else pawnEnPassantLoop b src off color rest
      else pawnEnPassantLoop b src off color rest
    | none => pawnEnPassantLoop b src off color rest

/-- En passant block of valid_pawn_moves_from in lib.rs, guarded by the en
passant rank of the moving pawn. -/
def pawnEnPassant (b : Board) (src : ChessIndex) (off : Int) (color : Color) :
    Option (List ChessMove) :=
  if src.rank.is_en_passant_rank color then
    pawnEnPassantLoop b src off color
      (([src.file.subn 1, src.file.addn 1].filterMap
        (fun fl? => fl?.map (fun fl => (⟨fl, src.rank⟩ : ChessIndex)))))
  else some []

/-- Function valid_pawn_moves_from of impl Game in lib.rs: forward and
capture moves (expanded to promotions on the promotion rank) followed by the
en passant moves.  A pawn with no forward rank yields the empty list; the
panicking unwraps of the source are modelled as none. -/
def Game.valid_pawn_moves_from (g : Game) (pawn_idx : ChessIndex) (pawn_color : Color) :
    Option (List ChessMove) :=
  let forward_offset : Int :=
    match pawn_color with
    | Color.black => -1
    | Color.white => 1
  match pawn_idx.rank.addInt forward_offset with
  | none => some []
  | some forward_rank =>
    let forward_idx : ChessIndex := ⟨pawn_idx.file, forward_rank⟩
    let diagonals : List ChessIndex :=
      ([forward_idx.file.subn 1, forward_idx.file.addn 1].filterMap
        (fun fl? => fl?.map (fun fl => (⟨fl, forward_idx.rank⟩ : ChessIndex))))
    let base? : Option (List ChessMove) :=
      if pawn_idx.rank.is_pawn_promotion_rank pawn_color then
        some ((if (g.board.piece_at forward_idx).isNone then
                 ChessMove.promotions pawn_idx forward_idx
               else []) ++
              pawnPromoCaptures g.board pawn_idx pawn_color diagonals)
      else
        (pawnForward g.board pawn_idx forward_idx forward_offset pawn_color).map
          (fun fw => fw ++ pawnDiagCaptures g.board pawn_idx pawn_color diagonals)
    match base?, pawnEnPassant g.board pawn_idx forward_offset pawn_color with
    | some base, some ep => some (base ++ ep)
    | _, _ => none

/-- Function add_taken of impl Game in lib.rs: push a captured piece onto
the capture list of the capturing player. -/
def Game.add_taken (g : Game) (player : Color) (p : Piece) : Game :=
  match player with
  | Color.black => { g with black_taken := g.black_taken ++ [p] }
  | Color.white => { g with white_taken := g.white_taken ++ [p] }

/-- King-square bookkeeping of execute_regular_move in lib.rs: when the
moved piece is a king, point the mover-color king field at the target. -/
def Game.set_king_if_king (g : Game) (moved : Piece) (dst : ChessIndex) : Game :=
  if moved.piece_type = PieceType.king then
    match moved.color with
    | Color.black => { g with black_king := dst }
    | Color.white => { g with white_king := dst }
  else g

/-- Function execute_regular_move of impl Game in lib.rs: take the moving
piece (panic when absent, modelled as none), take any target piece (panic
when it is of the own color), record the capture, update the king field and
place the piece. -/
def Game.execute_regular_move (g : Game) (rm : RegularMove) : Option Game :=
  match g.board.piece_at rm.from_idx with
  | none => none
  | some from_piece =>
    match Board.piece_at (g.board.clear_at rm.from_idx) rm.to_idx with
    | some to_piece =>
      if to_piece.color = from_piece.color then none
      else
        let g1 := Game.add_taken
          { g with board := (g.board.clear_at rm.from_idx).clear_at rm.to_idx }
          from_piece.color to_piece
        let g2 := g1.set_king_if_king from_piece rm.to_idx
        some { g2 with board := Board.set_piece g2.board rm.to_idx from_piece }
    | none =>
      let g2 := Game.set_king_if_king
        { g with board := (g.board.clear_at rm.from_idx).clear_at rm.to_idx }
        from_piece rm.to_idx
      some { g2 with board := Board.set_piece g2.board rm.to_idx from_piece }

/-- Function execute_castle_move of impl Game in lib.rs: take king and rook
(panic when either is absent), panic when either destination is occupied,
then place both.  Note that it never updates the stored king fields. -/
def Game.execute_castle_move (g : Game) (cm : CastleMove) : Option Game :=
  match g.board.piece_at cm.king_from with
  | none => none
  | some king =>
    match Board.piece_at (g.board.clear_at cm.king_from) cm.rook_from with
    | none => none
    | some rook =>
      let b2 := (g.board.clear_at cm.king_from).clear_at cm.rook_from
      if (b2.piece_at cm.king_to).isSome || (b2.piece_at cm.rook_to).isSome then none
      else
        some { g with board :=
          Board.set_piece (b2.set_piece cm.king_to king) cm.rook_to rook }

/-- Function execute_promotion_move of impl Game in lib.rs: take the pawn
(panic when absent), take and record any target piece, and place a freshly
created piece of the promotion kind. -/
def Game.execute_promotion_move (g : Game) (pm : PromotionMove) : Option Game :=
  match g.board.piece_at pm.from_idx with
  | none => none
  | some pawn =>
    match Board.piece_at (g.board.clear_at pm.from_idx) pm.to_idx with
    | some taken =>
      let g1 := Game.add_taken
        { g with board := (g.board.clear_at pm.from_idx).clear_at pm.to_idx }
        pawn.color taken
      some { g1 with
        board := Board.set_piece g1.board pm.to_idx (Piece.new pm.promotion_piece pawn.color) }
    | none =>
      some { g with
        board := Board.set_piece ((g.board.clear_at pm.from_idx).clear_at pm.to_idx)
          pm.to_idx (Piece.new pm.promotion_piece pawn.color) }

/-- Function execute_en_passant_move of impl Game in lib.rs: panic when the
destination is occupied, take the pawn and the captured pawn (panic when
either is absent or the captured piece is no pawn), record the capture and
place the pawn on the destination. -/
def Game.execute_en_passant_move (g : Game) (em : EnPassantMove) : Option Game :=
  if (g.board.piece_at em.to_idx).isSome then none
  else
    match g.board.piece_at em.from_idx with
    | none => none
    | some pawn =>
      match Board.piece_at (g.board.clear_at em.from_idx) em.taken_pawn_idx with
      | none => none
      | some taken_pawn =>
        if taken_pawn.piece_type ≠ PieceType.pawn then none
        else
          let g1 := Game.add_taken
            { g with board := (g.board.clear_at em.from_idx).clear_at em.taken_pawn_idx }
            pawn.color taken_pawn
          some { g1 with board := Board.set_piece g1.board em.to_idx pawn }

/-- Function execute_move of impl Game in lib.rs: snapshot the board,
dispatch on the move variant and push the snapshot onto the history. -/
def Game.execute_move (g : Game) (m : ChessMove) : Option Game :=
  let prev := g.board
  (match m with
   | ChessMove.regular rm => g.execute_regular_move rm
   | ChessMove.castle cm => g.execute_castle_move cm
   | ChessMove.promotion pm => g.execute_promotion_move pm
   | ChessMove.enPassant em => g.execute_en_passant_move em).map
    (fun (g1 : Game) => { g1 with history := g1.history ++ [prev] })

/-- Function undo_last_move of impl Game in lib.rs: pop the last history
entry, when any, back into the board.  No other field is touched. -/
def Game.undo_last_move (g : Game) : Game :=
  match g.history.getLast? with
  | none => g
  | some b => { g with board := b, history := g.history.dropLast }

/-- Filtering loop of valid_moves_from in lib.rs: each candidate move is
executed on the running clone, kept when the mover king is not then
checked, and undone.  A panic inside an execution (none) aborts the whole
call, mirroring a Rust panic. -/
def filterLoop (c : Game) (color : Color) : List ChessMove → Option (List ChessMove)
  | [] => some []
  | m :: ms =>
    match c.execute_move m with
    | none => none
    | some c' =>
      (filterLoop c'.undo_last_move color ms).map
        (fun rest => if c'.is_king_checked color then rest else m :: rest)

/-- Function valid_moves_from of impl Game in lib.rs: dispatch to the
per-kind pseudo-legal generator of the piece on the square (an empty square
yields the empty list), then keep only the moves whose execution leaves the
mover king unchecked. -/
def Game.valid_moves_from (g : Game) (from_index : ChessIndex) :
    Option (List ChessMove) :=
  match g.board.piece_at from_index with
  | none => some []
  | some piece =>
    match (match piece.piece_type with
           | PieceType.pawn => g.valid_pawn_moves_from from_index piece.color
           | PieceType.knight => some (g.valid_knight_moves_from from_index piece.color)
           | PieceType.bishop => some (g.valid_bishop_moves_from from_index piece.color)
           | PieceType.rook => some (g.valid_rook_moves_from from_index piece.color)
           | PieceType.queen => some (g.valid_queen_moves_from from_index piece.color)
           | PieceType.king => some (g.valid_king_moves_from from_index piece.color)) with
    | none => none
    | some gen => filterLoop g piece.color gen

/-- CanCastleError enum from lib.rs. -/
inductive CanCastleError where
  | wrongPieces
  | squareInCheck (i : ChessIndex)
  | piecesBetween
  | pieceHasMadeMove (i : ChessIndex)
deriving DecidableEq, Repr

/-- Loop of can_castle in lib.rs over the inclusive king-rook segment: a
non-endpoint occupied square yields PiecesBetween, and any checked square
(endpoints included) yields SquareInCheck, first violation wins. -/
def canCastleLoop (g : Game) (color : Color) (king_index rook_index : ChessIndex) :
    List ChessIndex → Option CanCastleError
  | [] => none
  | i :: rest =>
    if i ≠ king_index ∧ i ≠ rook_index ∧ (g.board.piece_at i).isSome then
      some CanCastleError.piecesBetween
    else if g.is_checked i color then some (CanCastleError.squareInCheck i)
    else canCastleLoop g color king_index rook_index rest

/-- Function can_castle of impl Game in lib.rs: both squares must hold a
same-colored king and rook that have never moved; every square of the
inclusive segment between them must pass the loop; then the king moves two
files toward the rook and the rook lands beside it.  The unwraps on the
destination files are modelled as none. -/
def Game.can_castle (g : Game) (king_index rook_index : ChessIndex) :
    Option (Except CanCastleError CastleMove) :=
  match g.board.piece_at king_index, g.board.piece_at rook_index with
  | some king, some rook =>
    if king.piece_type = PieceType.king ∧ rook.piece_type = PieceType.rook ∧
        king.color = rook.color then
      if king.has_made_move then
        some (Except.error (CanCastleError.pieceHasMadeMove king_index))
      else if rook.has_made_move then
        some (Except.error (CanCastleError.pieceHasMadeMove rook_index))
      else
        match canCastleLoop g king.color king_index rook_index
            (ChessIndex.indices_between king_index rook_index) with
        | some e => some (Except.error e)
        | none =>
          if king_index.file.toNat < rook_index.file.toNat then
            match king_index.file.addn 2, king_index.file.addn 1 with
            | some f2, some f1 =>
              some (Except.ok ⟨king_index, ⟨f2, king_index.rank⟩,
                               rook_index, ⟨f1, rook_index.rank⟩⟩)
            | _, _ => none
          else
            match king_index.file.subn 2, king_index.file.subn 1 with
            | some f2, some f1 =>
              some (Except.ok ⟨king_index, ⟨f2, king_index.rank⟩,
                               rook_index, ⟨f1, rook_index.rank⟩⟩)
            | _, _ => none
    else some (Except.error CanCastleError.wrongPieces)
  | _, _ => some (Except.error CanCastleError.wrongPieces)

/-- Placement list of impl Default for Game in lib.rs, in source order. -/
def defaultPlacements : List (ChessIndex × Piece) :=
  [(A1, Piece.new PieceType.rook Color.white),
   (B1, Piece.new PieceType.knight Color.white),
   (C1, Piece.new PieceType.bishop Color.white),
   (D1, Piece.new PieceType.queen Color.white),
   (E1, Piece.new PieceType.king Color.white),
   (F1, Piece.new PieceType.bishop Color.white),
   (G1, Piece.new PieceType.knight Color.white),
   (H1, Piece.new PieceType.rook Color.white),
   (A2, Piece.new PieceType.pawn Color.white),
   (B2, Piece.new PieceType.pawn Color.white),
   (C2, Piece.new PieceType.pawn Color.white),
   (D2, Piece.new PieceType.pawn Color.white),
   (E2, Piece.new PieceType.pawn Color.white),
   (F2, Piece.new PieceType.pawn Color.white),
   (G2, Piece.new PieceType.pawn Color.white),
   (H2, Piece.new PieceType.pawn Color.white),
   (A7, Piece.new PieceType.pawn Color.black),
   (B7, Piece.new PieceType.pawn Color.black),
   (C7, Piece.new PieceType.pawn Color.black),
   (D7, Piece.new PieceType.pawn Color.black),
   (E7, Piece.new PieceType.pawn Color.black),
   (F7, Piece.new PieceType.pawn Color.black),
   (G7, Piece.new PieceType.pawn Color.black),
   (H7, Piece.new PieceType.pawn Color.black),
   (A8, Piece.new PieceType.rook Color.black),
   (B8, Piece.new PieceType.knight Color.black),
   (C8, Piece.new PieceType.bishop Color.black),
   (D8, Piece.new PieceType.queen Color.black),
   (E8, Piece.new PieceType.king Color.black),
   (F8, Piece.new PieceType.bishop Color.black),
   (G8, Piece.new PieceType.knight Color.black),
   (H8, Piece.new PieceType.rook Color.black)]

/-- Impl Default for Game in lib.rs: the standard placement on an empty
board, empty captures and history, and the stored king squares E1 and --
exactly as the source writes -- E7 for Black, although the black king is
placed on E8. -/
def Game.mkDefault : Game :=
  { board := defaultPlacements.foldl (fun b pr => b.set_piece pr.1 pr.2) Board.default
    white_king := E1
    black_king := E7
    white_taken := []
    black_taken := []
    history := [] }

deriving instance DecidableEq for Except

/-- MovePieceError enum from chess_board.rs and lib.rs. -/
inductive MovePieceError where
  | noPieceToMove (i : ChessIndex)
  | ownPieceAtTarget
deriving DecidableEq, Repr

/-- ChessBoard struct from chess_board.rs (the older board kept in the
snapshot next to the reworked Game): its own king squares, the 64 optional
piece slots, and a boxed snapshot of the previous board.  The recursive
previous pointer makes this an inductive type. -/
inductive CBoard where
  | mk (white_king black_king : ChessIndex) (squares : List (Option Piece))
      (previous : Option CBoard)

/-- White king field of a CBoard. -/
def CBoard.white_king : CBoard → ChessIndex
  | CBoard.mk wk _ _ _ => wk

/-- Black king field of a CBoard. -/
def CBoard.black_king : CBoard → ChessIndex
  | CBoard.mk _ bk _ _ => bk

/-- Squares field of a CBoard. -/
def CBoard.squares : CBoard → List (Option Piece)
  | CBoard.mk _ _ sq _ => sq

/-- Previous-board field of a CBoard. -/
def CBoard.previous : CBoard → Option CBoard
  | CBoard.mk _ _ _ p => p

/-- Replacement of the previous-board field, as the assignment at the end
of ChessBoard::execute_move performs. -/
def CBoard.set_previous : CBoard → Option CBoard → CBoard
  | CBoard.mk wk bk sq _, p => CBoard.mk wk bk sq p

/-- Function move_piece of impl ChessBoard in chess_board.rs: fails before
any mutation when the source is empty or the target holds an own piece;
otherwise removes the piece, updates the king field when a king moves,
appends the target to the piece history and stores it (silently replacing
any enemy occupant). -/
def CBoard.move_piece (b : CBoard) (src dst : ChessIndex) :
    Except MovePieceError CBoard :=
  match b.squares.getD src.linear none with
  | none => Except.error (MovePieceError.noPieceToMove src)
  | some from_piece =>
    if (match b.squares.getD dst.linear none with
        | some p => p.color == from_piece.color
        | none => false) then
      Except.error MovePieceError.ownPieceAtTarget
    else
      match b with
      | CBoard.mk wk bk sq prev =>
        let sq1 := sq.set src.linear none
        let wk1 := if from_piece.piece_type = PieceType.king ∧
            from_piece.color = Color.white then dst else wk
        let bk1 := if from_piece.piece_type = PieceType.king ∧
            from_piece.color = Color.black then dst else bk
        let moved := { from_piece with history := from_piece.history ++ [dst] }
        Except.ok (CBoard.mk wk1 bk1 (sq1.set dst.linear (some moved)) prev)

/-- RegularMove of the older chess_move.rs in the snapshot: source, target
and the (optional) piece standing on the target. -/
structure OldRegularMove where
  from_idx : ChessIndex
  to_idx : ChessIndex
  piece : Option Piece
deriving DecidableEq, Repr

/-- PromotionMove of the older chess_move.rs in the snapshot. -/
structure OldPromotionMove where
  from_idx : ChessIndex
  to_idx : ChessIndex
  pawn : Piece
  promotion_piece : Piece
  taken_piece : Option Piece
deriving DecidableEq, Repr

/-- ChessMove of the older chess_move.rs in the snapshot: only the three
variants Regular, Castle and Promotion exist there. -/
inductive OldChessMove where
  | regular (rm : OldRegularMove)
  | castle (cm : CastleMove)
  | promotion (pm : OldPromotionMove)
deriving DecidableEq, Repr

/-- Function execute_move of impl ChessBoard in chess_board.rs: clone the
whole pre-call state, run move_piece for a Regular move (the Castle and
Promotion arms are unimplemented, modelled as none), and then -- whether or
not move_piece failed -- overwrite the previous field with the clone.  The
pair returned is (the move_piece result, the board after the call). -/
def CBoard.execute_move (b : CBoard) (m : OldChessMove) :
    Option (Except MovePieceError Unit × CBoard) :=
  let prev := b
  match m with
  | OldChessMove.regular rm =>
    match b.move_piece rm.from_idx rm.to_idx with
    | Except.ok b1 => some (Except.ok (), b1.set_previous (some prev))
    | Except.error e => some (Except.error e, b.set_previous (some prev))
  | OldChessMove.castle _ => none
  | OldChessMove.promotion _ => none

/-- Impl Default for ChessBoard in chess_board.rs: the standard placement
(the same squares as the Game default), each piece seeded with its own
square as one-element history by the constructor loop, and no previous
board. -/
def CBoard.mkDefault : CBoard :=
  CBoard.mk E1 E8
    (defaultPlacements.foldl
      (fun sq pr => sq.set pr.1.linear (some { pr.2 with history := [pr.1] }))
      (List.replicate 64 none))
    none

/-- ParseChessIndexError enum from chess_index.rs. -/
inductive ParseChessIndexError where
  | lengthNot2
  | invalidFile (c : Char)
  | invalidRank (c : Char)
deriving DecidableEq, Repr

/-- TryFrom char for File in file.rs: the letters a..h in either case. -/
def File.try_from_char (c : Char) : Option File :=
  if c = 'a' ∨ c = 'A' then some File.a
  else if c = 'b' ∨ c = 'B' then some File.b
  else if c = 'c' ∨ c = 'C' then some File.c
  else if c = 'd' ∨ c = 'D' then some File.d
  else if c = 'e' ∨ c = 'E' then some File.e
  else if c = 'f' ∨ c = 'F' then some File.f
  else if c = 'g' ∨ c = 'G' then some File.g
  else if c = 'h' ∨ c = 'H' then some File.h
  else none

/-- TryFrom char for Rank in rank.rs: the digits 1..8. -/
def Rank.try_from_char (c : Char) : Option Rank :=
  if c = '1' then some Rank.first
  else if c = '2' then some Rank.second
  else if c = '3' then some Rank.third
  else if c = '4' then some Rank.fourth
  else if c = '5' then some Rank.fifth
  else if c = '6' then some Rank.sixth
  else if c = '7' then some Rank.seventh
  else if c = '8' then some Rank.eighth
  else none

/-- FromStr for ChessIndex in chess_index.rs.  The input is the UTF-8 byte
list of the string: the source checks `s.len()` (the byte count) and reads
`s.as_bytes()[i] as char`, which is the character with code point equal to
the byte, here `Char.ofNat`.  A wrong length fails with LengthNot2; an
unrecognized first or second character fails with InvalidFile or
InvalidRank carrying that character. -/
def ChessIndex.from_str (s : List Nat) : Except ParseChessIndexError ChessIndex :=
  if s.length ≠ 2 then Except.error ParseChessIndexError.lengthNot2
  else
    let file_char := Char.ofNat (s.getD 0 0)
    match File.try_from_char file_char with
    | none => Except.error (ParseChessIndexError.invalidFile file_char)
    | some fl =>
      let rank_char := Char.ofNat (s.getD 1 0)
      match Rank.try_from_char rank_char with
      | none => Except.error (ParseChessIndexError.invalidRank rank_char)
      | some r => Except.ok ⟨fl, r⟩

/-- ASCII codes of the file letters a..h and A..H, the spec vocabulary for
a well-formed first coordinate character. -/
def fileLetterBytes : List Nat :=
  [97, 98, 99, 100, 101, 102, 103, 104, 65, 66, 67, 68, 69, 70, 71, 72]

/-- ASCII codes of the rank digits 1..8, the spec vocabulary for a
well-formed second coordinate character. -/
def rankDigitBytes : List Nat :=
  [49, 50, 51, 52, 53, 54, 55, 56]

/-- Moves that relocate a king of the given color: a Regular move whose
source square holds a king of that color. -/
def KingRegular (b : Board) (color : Color) : ChessMove → Prop
  | ChessMove.regular rm => ∃ q, b.piece_at rm.from_idx = some q ∧
      q.piece_type = PieceType.king ∧ q.color = color
  | _ => False

/-- Shape of the moves a per-piece generator can emit: every move starts at
the queried square and is never a Castle. -/
def MoveSrcShape (fi : ChessIndex) : ChessMove → Prop
  | ChessMove.regular rm => rm.from_idx = fi
  | ChessMove.promotion pm => pm.from_idx = fi
  | ChessMove.enPassant em => em.from_idx = fi
  | ChessMove.castle _ => False

/-- Predicate for C8: every piece of the opponent of the given color on the
board is a king (so the only possible attackers are kings, which the
detectors of is_checked never look for). -/
def Board.enemy_kings_only (b : Board) (c : Color) : Bool :=
  b.all (fun oq =>
    match oq with
    | some q => !(q.color == c.opponent) || (q.piece_type == PieceType.king)
    | none => true)

/-- Boolean for C9: a Regular or Promotion move does not land on a piece of
the moving color.  Castle and EnPassant moves carry no such guarantee in the
generators and are vacuously true here. -/
def ChessMove.dest_own_free (b : Board) (color : Color) : ChessMove → Bool
  | ChessMove.regular rm =>
    match b.piece_at rm.to_idx with
    | some q => q.color != color
    | none => true
  | ChessMove.promotion pm =>
    match b.piece_at pm.to_idx with
    | some q => q.color != color
    | none => true
  | _ => true

/-- Game after the opening double step D2-D4 from the initial position, the
first stage of the C2 scenario. -/
def c2_g1 : Option Game := Game.mkDefault.execute_move (ChessMove.mkRegular D2 D4)

/-- Game after D2-D4, H7-H6. -/
def c2_g2 : Option Game := c2_g1.bind (fun g => g.execute_move (ChessMove.mkRegular H7 H6))

/-- Game after D2-D4, H7-H6, D4-D5. -/
def c2_g3 : Option Game := c2_g2.bind (fun g => g.execute_move (ChessMove.mkRegular D4 D5))

/-- Game after D2-D4, H7-H6, D4-D5, E7-E5: the black double step lands next
to the white pawn on D5, so en passant onto E6 is timely here. -/
def c2_g4 : Option Game := c2_g3.bind (fun g => g.execute_move (ChessMove.mkRegular E7 E5))

/-- Game after D2-D4, H7-H6, D4-D5, E7-E5, A2-A3: one further move has been
played, so en passant on D5 should have expired. -/
def c2_g5 : Option Game := c2_g4.bind (fun g => g.execute_move (ChessMove.mkRegular A2 A3))

/-- Game after D2-D4, H7-H6, D4-D5, E7-E5, A2-A3, H6-H5: two further moves
have been played. -/
def c2_g6 : Option Game := c2_g5.bind (fun g => g.execute_move (ChessMove.mkRegular H6 H5))

/-- Game after E2-E4 from the initial position, for the C3 scenario. -/
def c3_g1 : Option Game := Game.mkDefault.execute_move (ChessMove.mkRegular E2 E4)

/-- Game after E2-E4 and then the white king step E1-E2. -/
def c3_g2 : Option Game := c3_g1.bind (fun g => g.execute_move (ChessMove.mkRegular E1 E2))

/-- Game after E2-E4, E1-E2 and one undo: the board is back to the
position after E2-E4 (white king on E1) while the stored fields keep
whatever values they had. -/
def c3_after_undo : Option Game := c3_g2.map Game.undo_last_move

/-- Board for the C6 scenario: white king on E1, white rook on A1, black
rook on B8 and black king on E8.  The black rook attacks B1, a square on
the E1-A1 span that the king never crosses when castling queen-side, and
attacks no square of the king path E1, D1, C1. -/
def c6_board : Board :=
  Board.set_piece
    (Board.set_piece
      (Board.set_piece
        (Board.set_piece Board.default E1 (Piece.new PieceType.king Color.white))
        A1 (Piece.new PieceType.rook Color.white))
      B8 (Piece.new PieceType.rook Color.black))
    E8 (Piece.new PieceType.king Color.black)

/-- Game for the C6 scenario over c6_board. -/
def c6_game : Game := ⟨c6_board, E1, E8, [], [], []⟩

/-- Game for the C7 scenario: the initial position with the bishop on F1
and the knight on G1 removed, so white king-side castling is available by
the rules and can_castle accepts it. -/
def c7_game : Game :=
  { Game.mkDefault with
    board := (Board.take_at (Board.take_at Game.mkDefault.board F1).2 G1).2 }

/-- Board for the C8 scenario: a white king on E4 and a black king on the
adjacent square E5, nothing else. -/
def c8_board : Board :=
  Board.set_piece
    (Board.set_piece Board.default E4 (Piece.new PieceType.king Color.white))
    E5 (Piece.new PieceType.king Color.black)

/-- Game for the C8 scenario over c8_board. -/
def c8_game : Game := ⟨c8_board, E4, E5, [], [], []⟩

/-- Game for the C9 scenario: from the initial position the white D2 pawn
is lifted to D5, black answers with the double step E7-E5, and the white
G1 knight is lifted to E6 -- the very square an en passant capture by the
D5 pawn would land on. -/
def c9_position : Option Game :=
  ((Game.mkDefault.execute_move (ChessMove.mkRegular D2 D5)).bind
    (fun g => g.execute_move (ChessMove.mkRegular E7 E5))).bind
    (fun g => g.execute_move (ChessMove.mkRegular G1 E6))

theorem Color.opponent_ne (c : Color) : c.opponent ≠ c := by
  cases c <;> simp [Color.opponent]

theorem Game.add_taken_board (g : Game) (c : Color) (p : Piece) :
    (g.add_taken c p).board = g.board := by
  cases c <;> rfl

theorem Game.add_taken_king_field (g : Game) (c : Color) (p : Piece) (color : Color) :
    (g.add_taken c p).king_field color = g.king_field color := by
  cases c <;> cases color <;> rfl

theorem Game.add_taken_history (g : Game) (c : Color) (p : Piece) :
    (g.add_taken c p).history = g.history := by
  cases c <;> rfl

theorem Game.set_king_board (g : Game) (moved : Piece) (dst : ChessIndex) :
    (g.set_king_if_king moved dst).board = g.board := by
  by_cases h : moved.piece_type = PieceType.king
  · cases hc : moved.color <;> simp [Game.set_king_if_king, h, hc]
  · simp [Game.set_king_if_king, h]

theorem Game.set_king_history (g : Game) (moved : Piece) (dst : ChessIndex) :
    (g.set_king_if_king moved dst).history = g.history := by
  by_cases h : moved.piece_type = PieceType.king
  · cases hc : moved.color <;> simp [Game.set_king_if_king, h, hc]
  · simp [Game.set_king_if_king, h]

theorem Game.set_king_king_field (g : Game) (moved : Piece) (dst : ChessIndex)
    (color : Color) :
    (g.set_king_if_king moved dst).king_field color =
      if moved.piece_type = PieceType.king ∧ moved.color = color then dst
      else g.king_field color := by
  by_cases h : moved.piece_type = PieceType.king
  · cases hc : moved.color <;> cases color <;>
      simp [Game.set_king_if_king, h, hc, Game.king_field]
  · simp [Game.set_king_if_king, h]

theorem Game.board_update_king_field (g : Game) (b : Board) (color : Color) :
    ({ g with board := b } : Game).king_field color = g.king_field color := by
  cases color <;> rfl

theorem Game.board_update_history (g : Game) (b : Board) :
    ({ g with board := b } : Game).history = g.history := rfl

theorem Game.execute_regular_sim (c g : Game) (rm : RegularMove) (color : Color)
    (hb : c.board = g.board)
    (hk : c.king_field color = g.king_field color ∨
      ∃ q, g.board.piece_at rm.from_idx = some q ∧
        q.piece_type = PieceType.king ∧ q.color = color)
    (cr : Game) (hc : c.execute_regular_move rm = some cr) :
    ∃ gr, g.execute_regular_move rm = some gr ∧ gr.board = cr.board ∧
      gr.king_field color = cr.king_field color := by
  unfold Game.execute_regular_move at hc ⊢
  rw [hb] at hc
  split at hc
  · exact absurd hc (by simp)
  · rename_i from_piece hfp
    split at hc
    · rename_i to_piece htp
      split at hc
      · exact absurd hc (by simp)
      · rename_i hcol
        have hcr := Option.some.inj hc
        subst hcr
        rw [if_neg hcol]
        refine ⟨_, rfl, ?_, ?_⟩
        · simp [Game.set_king_board, Game.add_taken_board]
        · simp only [Game.set_king_king_field, Game.add_taken_king_field,
            Game.board_update_king_field]
          by_cases hcond : from_piece.piece_type = PieceType.king ∧ from_piece.color = color
          · rw [if_pos hcond, if_pos hcond]
          · rw [if_neg hcond, if_neg hcond]
            rcases hk with hk | ⟨q, hq, hqk, hqc⟩
            · exact hk.symm
            · rw [hfp] at hq
              cases Option.some.inj hq
              exact absurd ⟨hqk, hqc⟩ hcond
    · rename_i htp
      have hcr := Option.some.inj hc
      subst hcr
      refine ⟨_, rfl, ?_, ?_⟩
      · simp [Game.set_king_board]
      · simp only [Game.set_king_king_field, Game.board_update_king_field]
        by_cases hcond : from_piece.piece_type = PieceType.king ∧ from_piece.color = color
        · rw [if_pos hcond, if_pos hcond]
        · rw [if_neg hcond, if_neg hcond]
          rcases hk with hk | ⟨q, hq, hqk, hqc⟩
          · exact hk.symm
          · rw [hfp] at hq
            cases Option.some.inj hq
            exact absurd ⟨hqk, hqc⟩ hcond

theorem Game.history_update_king_field (g : Game) (h : List Board) (color : Color) :
    ({ g with history := h } : Game).king_field color = g.king_field color := by
  cases color <;> rfl

theorem Game.execute_castle_sim (c g : Game) (cm : CastleMove) (color : Color)
    (hb : c.board = g.board) (hkf : c.king_field color = g.king_field color)
    (cr : Game) (hc : c.execute_castle_move cm = some cr) :
    ∃ gr, g.execute_castle_move cm = some gr ∧ gr.board = cr.board ∧
      gr.king_field color = cr.king_field color := by
  unfold Game.execute_castle_move at hc ⊢
  rw [hb] at hc
  split at hc
  · exact absurd hc (by simp)
  · split at hc
    · exact absurd hc (by simp)
    · dsimp only at hc ⊢
      split at hc
      · exact absurd hc (by simp)
      · rename_i hocc
        rw [if_neg hocc]
        have hcr := Option.some.inj hc
        subst hcr
        exact ⟨_, rfl, rfl, by
          simpa [Game.board_update_king_field] using hkf.symm⟩

theorem Game.execute_promotion_sim (c g : Game) (pm : PromotionMove) (color : Color)
    (hb : c.board = g.board) (hkf : c.king_field color = g.king_field color)
    (cr : Game) (hc : c.execute_promotion_move pm = some cr) :
    ∃ gr, g.execute_promotion_move pm = some gr ∧ gr.board = cr.board ∧
      gr.king_field color = cr.king_field color := by
  unfold Game.execute_promotion_move at hc ⊢
  rw [hb] at hc
  split at hc
  · exact absurd hc (by simp)
  · split at hc
    · have hcr := Option.some.inj hc
      subst hcr
      refine ⟨_, rfl, ?_, ?_⟩
      · simp [Game.add_taken_board]
      · simpa [Game.add_taken_king_field, Game.board_update_king_field] using hkf.symm
    · have hcr := Option.some.inj hc
      subst hcr
      refine ⟨_, rfl, rfl, ?_⟩
      simpa [Game.board_update_king_field] using hkf.symm

theorem Game.execute_en_passant_sim (c g : Game) (em : EnPassantMove) (color : Color)
    (hb : c.board = g.board) (hkf : c.king_field color = g.king_field color)
    (cr : Game) (hc : c.execute_en_passant_move em = some cr) :
    ∃ gr, g.execute_en_passant_move em = some gr ∧ gr.board = cr.board ∧
      gr.king_field color = cr.king_field color := by
  unfold Game.execute_en_passant_move at hc ⊢
  rw [hb] at hc
  split at hc
  · exact absurd hc (by simp)
  · rename_i hocc
    rw [if_neg (by simpa using hocc)]
    split at hc
    · exact absurd hc (by simp)
    · split at hc
      · exact absurd hc (by simp)
      · split at hc
        · exact absurd hc (by simp)
        · rename_i hpawn
          rw [if_neg hpawn]
          have hcr := Option.some.inj hc
          subst hcr
          refine ⟨_, rfl, ?_, ?_⟩
          · simp [Game.add_taken_board]
          · simpa [Game.add_taken_king_field, Game.board_update_king_field] using hkf.symm

theorem Game.execute_move_sim (c g : Game) (m : ChessMove) (color : Color)
    (hb : c.board = g.board)
    (hk : c.king_field color = g.king_field color ∨ KingRegular g.board color m)
    (c' : Game) (hc : c.execute_move m = some c') :
    ∃ g', g.execute_move m = some g' ∧ g'.board = c'.board ∧
      g'.king_field color = c'.king_field color := by
  cases m with
  | regular rm =>
    unfold Game.execute_move at hc ⊢
    dsimp only at hc ⊢
    cases hcr : c.execute_regular_move rm with
    | none => rw [hcr] at hc; simp at hc
    | some cr =>
      rw [hcr] at hc
      simp only [Option.map_some'] at hc
      have hc' := Option.some.inj hc
      subst hc'
      obtain ⟨gr, hgr, hbd, hkf⟩ :=
        Game.execute_regular_sim c g rm color hb (by exact hk) cr hcr
      rw [hgr]
      simp only [Option.map_some']
      refine ⟨_, rfl, ?_, ?_⟩
      · simpa using hbd
      · simpa [Game.history_update_king_field] using hkf
  | castle cm =>
    have hkf : c.king_field color = g.king_field color := by
      rcases hk with hk | hk
      · exact hk
      · exact absurd hk (by simp [KingRegular])
    unfold Game.execute_move at hc ⊢
    dsimp only at hc ⊢
    cases hcr : c.execute_castle_move cm with
    | none => rw [hcr] at hc; simp at hc
    | some cr =>
      rw [hcr] at hc
      simp only [Option.map_some'] at hc
      have hc' := Option.some.inj hc
      subst hc'
      obtain ⟨gr, hgr, hbd, hkf'⟩ := Game.execute_castle_sim c g cm color hb hkf cr hcr
      rw [hgr]
      simp only [Option.map_some']
      refine ⟨_, rfl, ?_, ?_⟩
      · simpa using hbd
      · simpa [Game.history_update_king_field] using hkf'
  | promotion pm =>
    have hkf : c.king_field color = g.king_field color := by
      rcases hk with hk | hk
      · exact hk
      · exact absurd hk (by simp [KingRegular])
    unfold Game.execute_move at hc ⊢
    dsimp only at hc ⊢
    cases hcr : c.execute_promotion_move pm with
    | none => rw [hcr] at hc; simp at hc
    | some cr =>
      rw [hcr] at hc
      simp only [Option.map_some'] at hc
      have hc' := Option.some.inj hc
      subst hc'
      obtain ⟨gr, hgr, hbd, hkf'⟩ := Game.execute_promotion_sim c g pm color hb hkf cr hcr
      rw [hgr]
      simp only [Option.map_some']
      refine ⟨_, rfl, ?_, ?_⟩
      · simpa using hbd
      · simpa [Game.history_update_king_field] using hkf'
  | enPassant em =>
    have hkf : c.king_field color = g.king_field color := by
      rcases hk with hk | hk
      · exact hk
      · exact absurd hk (by simp [KingRegular])
    unfold Game.execute_move at hc ⊢
    dsimp only at hc ⊢
    cases hcr : c.execute_en_passant_move em with
    | none => rw [hcr] at hc; simp at hc
    | some cr =>
      rw [hcr] at hc
      simp only [Option.map_some'] at hc
      have hc' := Option.some.inj hc
      subst hc'
      obtain ⟨gr, hgr, hbd, hkf'⟩ := Game.execute_en_passant_sim c g em color hb hkf cr hcr
      rw [hgr]
      simp only [Option.map_some']
      refine ⟨_, rfl, ?_, ?_⟩
      · simpa using hbd
      · simpa [Game.history_update_king_field] using hkf'

theorem Game.execute_regular_move_history (g : Game) (rm : RegularMove) (gr : Game)
    (h : g.execute_regular_move rm = some gr) : gr.history = g.history := by
  unfold Game.execute_regular_move at h
  split at h
  · exact absurd h (by simp)
  · split at h
    · split at h
      · exact absurd h (by simp)
      · cases Option.some.inj h
        simp [Game.set_king_history, Game.add_taken_history]
    · cases Option.some.inj h
      simp [Game.set_king_history]

theorem Game.execute_castle_move_history (g : Game) (cm : CastleMove) (gr : Game)
    (h : g.execute_castle_move cm = some gr) : gr.history = g.history := by
  unfold Game.execute_castle_move at h
  split at h
  · exact absurd h (by simp)
  · split at h
    · exact absurd h (by simp)
    · dsimp only at h
      split at h
      · exact absurd h (by simp)
      · cases Option.some.inj h
        rfl

theorem Game.execute_promotion_move_history (g : Game) (pm : PromotionMove) (gr : Game)
    (h : g.execute_promotion_move pm = some gr) : gr.history = g.history := by
  unfold Game.execute_promotion_move at h
  split at h
  · exact absurd h (by simp)
  · split at h
    · cases Option.some.inj h
      simp [Game.add_taken_history]
    · cases Option.some.inj h
      rfl

theorem Game.execute_en_passant_move_history (g : Game) (em : EnPassantMove) (gr : Game)
    (h : g.execute_en_passant_move em = some gr) : gr.history = g.history := by
  unfold Game.execute_en_passant_move at h
  split at h
  · exact absurd h (by simp)
  · split at h
    · exact absurd h (by simp)
    · split at h
      · exact absurd h (by simp)
      · split at h
        · exact absurd h (by simp)
        · cases Option.some.inj h
          simp [Game.add_taken_history]

theorem Game.execute_move_history (g : Game) (m : ChessMove) (g' : Game)
    (h : g.execute_move m = some g') : g'.history = g.history ++ [g.board] := by
  cases m with
  | regular rm =>
    unfold Game.execute_move at h
    dsimp only at h
    cases hcr : g.execute_regular_move rm with
    | none => rw [hcr] at h; simp at h
    | some gr =>
      rw [hcr] at h
      simp only [Option.map_some'] at h
      cases Option.some.inj h
      simp [Game.execute_regular_move_history g rm gr hcr]
  | castle cm =>
    unfold Game.execute_move at h
    dsimp only at h
    cases hcr : g.execute_castle_move cm with
    | none => rw [hcr] at h; simp at h
    | some gr =>
      rw [hcr] at h
      simp only [Option.map_some'] at h
      cases Option.some.inj h
      simp [Game.execute_castle_move_history g cm gr hcr]
  | promotion pm =>
    unfold Game.execute_move at h
    dsimp only at h
    cases hcr : g.execute_promotion_move pm with
    | none => rw [hcr] at h; simp at h
    | some gr =>
      rw [hcr] at h
      simp only [Option.map_some'] at h
      cases Option.some.inj h
      simp [Game.execute_promotion_move_history g pm gr hcr]
  | enPassant em =>
    unfold Game.execute_move at h
    dsimp only at h
    cases hcr : g.execute_en_passant_move em with
    | none => rw [hcr] at h; simp at h
    | some gr =>
      rw [hcr] at h
      simp only [Option.map_some'] at h
      cases Option.some.inj h
      simp [Game.execute_en_passant_move_history g em gr hcr]

theorem Game.undo_after_execute (g : Game) (m : ChessMove) (g' : Game)
    (h : g.execute_move m = some g') :
    g'.undo_last_move.board = g.board ∧ g'.undo_last_move.history = g.history ∧
      ∀ color, g'.undo_last_move.king_field color = g'.king_field color := by
  have hh := Game.execute_move_history g m g' h
  unfold Game.undo_last_move
  rw [hh, List.getLast?_concat]
  refine ⟨rfl, ?_, ?_⟩
  · simp [hh, List.dropLast_concat]
  · intro color
    cases color <;> rfl

theorem Game.execute_regular_move_field (g : Game) (rm : RegularMove) (gr : Game)
    (h : g.execute_regular_move rm = some gr) (color : Color)
    (hnk : ¬ ∃ q, g.board.piece_at rm.from_idx = some q ∧
      q.piece_type = PieceType.king ∧ q.color = color) :
    gr.king_field color = g.king_field color := by
  unfold Game.execute_regular_move at h
  split at h
  · exact absurd h (by simp)
  · rename_i from_piece hfp
    split at h
    · split at h
      · exact absurd h (by simp)
      · cases Option.some.inj h
        simp only [Game.set_king_king_field, Game.add_taken_king_field,
          Game.board_update_king_field]
        rw [if_neg (fun hcond => hnk ⟨from_piece, hfp, hcond.1, hcond.2⟩)]
    · cases Option.some.inj h
      simp only [Game.set_king_king_field, Game.board_update_king_field]
      rw [if_neg (fun hcond => hnk ⟨from_piece, hfp, hcond.1, hcond.2⟩)]

theorem Game.execute_move_field_frozen (g : Game) (m : ChessMove) (g' : Game)
    (color : Color) (h : g.execute_move m = some g')
    (hnk : ¬ KingRegular g.board color m) :
    g'.king_field color = g.king_field color := by
  cases m with
  | regular rm =>
    unfold Game.execute_move at h
    dsimp only at h
    cases hcr : g.execute_regular_move rm with
    | none => rw [hcr] at h; simp at h
    | some gr =>
      rw [hcr] at h
      simp only [Option.map_some'] at h
      cases Option.some.inj h
      rw [Game.history_update_king_field]
      exact Game.execute_regular_move_field g rm gr hcr color
        (fun hq => hnk (by simpa [KingRegular] using hq))
  | castle cm =>
    unfold Game.execute_move at h
    dsimp only at h
    cases hcr : g.execute_castle_move cm with
    | none => rw [hcr] at h; simp at h
    | some gr =>
      rw [hcr] at h
      simp only [Option.map_some'] at h
      cases Option.some.inj h
      rw [Game.history_update_king_field]
      unfold Game.execute_castle_move at hcr
      split at hcr
      · exact absurd hcr (by simp)
      · split at hcr
        · exact absurd hcr (by simp)
        · dsimp only at hcr
          split at hcr
          · exact absurd hcr (by simp)
          · cases Option.some.inj hcr
            rw [Game.board_update_king_field]
  | promotion pm =>
    unfold Game.execute_move at h
    dsimp only at h
    cases hcr : g.execute_promotion_move pm with
    | none => rw [hcr] at h; simp at h
    | some gr =>
      rw [hcr] at h
      simp only [Option.map_some'] at h
      cases Option.some.inj h
      rw [Game.history_update_king_field]
      unfold Game.execute_promotion_move at hcr
      split at hcr
      · exact absurd hcr (by simp)
      · split at hcr
        · cases Option.some.inj hcr
          simp [Game.add_taken_king_field, Game.board_update_king_field]
        · cases Option.some.inj hcr
          rw [Game.board_update_king_field]
  | enPassant em =>
    unfold Game.execute_move at h
    dsimp only at h
    cases hcr : g.execute_en_passant_move em with
    | none => rw [hcr] at h; simp at h
    | some gr =>
      rw [hcr] at h
      simp only [Option.map_some'] at h
      cases Option.some.inj h
      rw [Game.history_update_king_field]
      unfold Game.execute_en_passant_move at hcr
      split at hcr
      · exact absurd hcr (by simp)
      · split at hcr
        · exact absurd hcr (by simp)
        · split at hcr
          · exact absurd hcr (by simp)
          · split at hcr
            · exact absurd hcr (by simp)
            · cases Option.some.inj hcr
              simp [Game.add_taken_king_field, Game.board_update_king_field]

theorem Game.is_checked_board (c g : Game) (i : ChessIndex) (color : Color)
    (hb : c.board = g.board) : c.is_checked i color = g.is_checked i color := by
  unfold Game.is_checked Game.is_checked_by_knight Game.is_checked_by_pawn
    Game.is_checked_by_bishop Game.is_checked_by_rook Game.is_checked_by_queen
  rw [hb]

theorem filterLoop_mem (color : Color) :
    ∀ (L : List ChessMove) (c : Game) (ms : List ChessMove),
    filterLoop c color L = some ms → ∀ m ∈ ms, m ∈ L := by
  intro L
  induction L with
  | nil =>
    intro c ms h m hm
    unfold filterLoop at h
    cases Option.some.inj h
    simp at hm
  | cons m0 rest ih =>
    intro c ms h m hm
    unfold filterLoop at h
    cases hcx : c.execute_move m0 with
    | none => rw [hcx] at h; simp at h
    | some c' =>
      rw [hcx] at h
      dsimp only at h
      cases hrest : filterLoop c'.undo_last_move color rest with
      | none => rw [hrest] at h; simp at h
      | some msr =>
        rw [hrest] at h
        simp only [Option.map_some'] at h
        cases Option.some.inj h
        by_cases hchk : c'.is_king_checked color = true
        · rw [if_pos hchk] at hm
          exact List.mem_cons_of_mem m0 (ih c'.undo_last_move msr hrest m hm)
        · rw [if_neg hchk] at hm
          rcases List.mem_cons.mp hm with rfl | hmem
          · exact List.mem_cons_self m rest
          · exact List.mem_cons_of_mem m0 (ih c'.undo_last_move msr hrest m hmem)

theorem filterLoop_sound (g : Game) (color : Color) :
    ∀ (L : List ChessMove) (c : Game) (ms : List ChessMove),
    c.board = g.board →
    ((∀ m ∈ L, KingRegular g.board color m) ∨
      (c.king_field color = g.king_field color ∧
        ∀ m ∈ L, ¬ KingRegular g.board color m)) →
    filterLoop c color L = some ms →
    ∀ m ∈ ms, ∃ g', g.execute_move m = some g' ∧ g'.is_king_checked color = false := by
  intro L
  induction L with
  | nil =>
    intro c ms _ _ h m hm
    unfold filterLoop at h
    cases Option.some.inj h
    simp at hm
  | cons m0 rest ih =>
    intro c ms hb hinv h m hm
    unfold filterLoop at h
    cases hcx : c.execute_move m0 with
    | none => rw [hcx] at h; simp at h
    | some c' =>
      rw [hcx] at h
      dsimp only at h
      cases hrest : filterLoop c'.undo_last_move color rest with
      | none => rw [hrest] at h; simp at h
      | some msr =>
        rw [hrest] at h
        simp only [Option.map_some'] at h
        cases Option.some.inj h
        have hk0 : c.king_field color = g.king_field color ∨
            KingRegular g.board color m0 := by
          rcases hinv with hall | ⟨hfe, _⟩
          · exact Or.inr (hall m0 (List.mem_cons_self m0 rest))
          · exact Or.inl hfe
        obtain ⟨g', hg', hbd, hkf⟩ := Game.execute_move_sim c g m0 color hb hk0 c' hcx
        have hchk_eq : g'.is_king_checked color = c'.is_king_checked color := by
          unfold Game.is_king_checked
          rw [hkf]
          exact Game.is_checked_board g' c' _ color hbd
        have hundo := Game.undo_after_execute c m0 c' hcx
        have hb' : c'.undo_last_move.board = g.board := by rw [hundo.1, hb]
        have hinv' : (∀ mm ∈ rest, KingRegular g.board color mm) ∨
            (c'.undo_last_move.king_field color = g.king_field color ∧
              ∀ mm ∈ rest, ¬ KingRegular g.board color mm) := by
          rcases hinv with hall | ⟨hfe, hnone⟩
          · exact Or.inl (fun mm hmm => hall mm (List.mem_cons_of_mem m0 hmm))
          · refine Or.inr ⟨?_, fun mm hmm => hnone mm (List.mem_cons_of_mem m0 hmm)⟩
            rw [hundo.2.2 color]
            have hfr : c'.king_field color = c.king_field color :=
              Game.execute_move_field_frozen c m0 c' color hcx
                (by rw [hb]; exact hnone m0 (List.mem_cons_self m0 rest))
            rw [hfr, hfe]
        by_cases hchk : c'.is_king_checked color = true
        · rw [if_pos hchk] at hm
          exact ih c'.undo_last_move msr hb' hinv' hrest m hm
        · rw [if_neg hchk] at hm
          rcases List.mem_cons.mp hm with rfl | hmem
          · refine ⟨g', hg', ?_⟩
            rw [hchk_eq]
            simpa using hchk
          · exact ih c'.undo_last_move msr hb' hinv' hrest m hmem

theorem movesAlongAux_shape (b : Board) (start : ChessIndex) (color : Color) :
    ∀ (cells : List ChessIndex) (m : ChessMove),
    m ∈ movesAlongAux b start cells color → ∃ dst, m = ChessMove.mkRegular start dst := by
  intro cells
  induction cells with
  | nil => intro m hm; simp [movesAlongAux] at hm
  | cons i rest ih =>
    intro m hm
    unfold movesAlongAux at hm
    cases hp : b.piece_at i with
    | some p =>
      rw [hp] at hm
      dsimp only at hm
      by_cases hop : p.color == color.opponent
      · rw [if_pos hop] at hm
        rcases List.mem_singleton.mp hm with rfl
        exact ⟨i, rfl⟩
      · rw [if_neg hop] at hm
        simp at hm
    | none =>
      rw [hp] at hm
      dsimp only at hm
      rcases List.mem_cons.mp hm with rfl | hmem
      · exact ⟨i, rfl⟩
      · exact ih m hmem

theorem offsetMovesAux_shape (b : Board) (src : ChessIndex) (color : Color) :
    ∀ (offs : List (Int × Int)) (m : ChessMove),
    m ∈ offsetMovesAux b src offs color → ∃ dst, m = ChessMove.mkRegular src dst := by
  intro offs
  induction offs with
  | nil => intro m hm; simp [offsetMovesAux] at hm
  | cons o rest ih =>
    intro m hm
    unfold offsetMovesAux at hm
    rcases o with ⟨fo, ro⟩
    cases hti : ChessIndex.try_from_pair ((src.file.toNat : Int) + fo)
        ((src.rank.toNat : Int) + ro) with
    | some i =>
      rw [hti] at hm
      dsimp only at hm
      rcases List.mem_append.mp hm with hhd | htl
      · cases hp : b.piece_at i with
        | some p =>
          rw [hp] at hhd
          dsimp only at hhd
          by_cases hown : p.color == color
          · rw [if_pos hown] at hhd; simp at hhd
          · rw [if_neg hown] at hhd
            rcases List.mem_singleton.mp hhd with rfl
            exact ⟨i, rfl⟩
        | none =>
          rw [hp] at hhd
          dsimp only at hhd
          rcases List.mem_singleton.mp hhd with rfl
          exact ⟨i, rfl⟩
      · exact ih m htl
    | none =>
      rw [hti] at hm
      dsimp only at hm
      exact ih m hm

theorem kingStep_shape (b : Board) (src : ChessIndex) (dst? : Option ChessIndex)
    (color : Color) (m : ChessMove) (hm : m ∈ kingStep b src dst? color) :
    ∃ dst, m = ChessMove.mkRegular src dst := by
  unfold kingStep at hm
  cases dst? with
  | none => simp at hm
  | some dst =>
    dsimp only at hm
    cases hp : b.piece_at dst with
    | some p =>
      rw [hp] at hm
      dsimp only at hm
      by_cases hown : p.color == color
      · rw [if_pos hown] at hm; simp at hm
      · rw [if_neg hown] at hm
        rcases List.mem_singleton.mp hm with rfl
        exact ⟨dst, rfl⟩
    | none =>
      rw [hp] at hm
      dsimp only at hm
      rcases List.mem_singleton.mp hm with rfl
      exact ⟨dst, rfl⟩

theorem Game.valid_king_moves_shape (g : Game) (src : ChessIndex) (color : Color)
    (m : ChessMove) (hm : m ∈ g.valid_king_moves_from src color) :
    ∃ dst, m = ChessMove.mkRegular src dst := by
  unfold Game.valid_king_moves_from at hm
  simp only [List.mem_append] at hm
  rcases hm with ((((((hm | hm) | hm) | hm) | hm) | hm) | hm) | hm <;>
    exact kingStep_shape _ _ _ _ m hm

theorem Game.valid_rook_moves_shape (g : Game) (src : ChessIndex) (color : Color)
    (m : ChessMove) (hm : m ∈ g.valid_rook_moves_from src color) :
    ∃ dst, m = ChessMove.mkRegular src dst := by
  unfold Game.valid_rook_moves_from Game.moves_to_opponents_piece at hm
  simp only [List.mem_append] at hm
  rcases hm with ((hm | hm) | hm) | hm <;>
    exact movesAlongAux_shape _ _ _ _ m hm

theorem Game.valid_bishop_moves_shape (g : Game) (src : ChessIndex) (color : Color)
    (m : ChessMove) (hm : m ∈ g.valid_bishop_moves_from src color) :
    ∃ dst, m = ChessMove.mkRegular src dst := by
  unfold Game.valid_bishop_moves_from Game.moves_to_opponents_piece at hm
  simp only [List.mem_append] at hm
  rcases hm with ((hm | hm) | hm) | hm <;>
    exact movesAlongAux_shape _ _ _ _ m hm

theorem Game.valid_queen_moves_shape (g : Game) (src : ChessIndex) (color : Color)
    (m : ChessMove) (hm : m ∈ g.valid_queen_moves_from src color) :
    ∃ dst, m = ChessMove.mkRegular src dst := by
  unfold Game.valid_queen_moves_from at hm
  rcases List.mem_append.mp hm with hm | hm
  · exact Game.valid_rook_moves_shape g src color m hm
  · exact Game.valid_bishop_moves_shape g src color m hm

theorem Game.valid_knight_moves_shape (g : Game) (src : ChessIndex) (color : Color)
    (m : ChessMove) (hm : m ∈ g.valid_knight_moves_from src color) :
    ∃ dst, m = ChessMove.mkRegular src dst :=
  offsetMovesAux_shape g.board src color knightOffsets m hm

theorem ChessMove.promotions_shape (src dst : ChessIndex) (m : ChessMove)
    (hm : m ∈ ChessMove.promotions src dst) : ∃ d k, m = ChessMove.promotion ⟨src, d, k⟩ := by
  unfold ChessMove.promotions at hm
  simp only [List.mem_cons, List.not_mem_nil, or_false] at hm
  rcases hm with rfl | rfl | rfl | rfl
  · exact ⟨dst, PieceType.knight, rfl⟩
  · exact ⟨dst, PieceType.rook, rfl⟩
  · exact ⟨dst, PieceType.queen, rfl⟩
  · exact ⟨dst, PieceType.bishop, rfl⟩

theorem pawnPromoCaptures_shape (b : Board) (src : ChessIndex) (color : Color) :
    ∀ (ds : List ChessIndex) (m : ChessMove), m ∈ pawnPromoCaptures b src color ds →
    ∃ d k, m = ChessMove.promotion ⟨src, d, k⟩ := by
  intro ds
  induction ds with
  | nil => intro m hm; simp [pawnPromoCaptures] at hm
  | cons d rest ih =>
    intro m hm
    unfold pawnPromoCaptures at hm
    rcases List.mem_append.mp hm with hhd | htl
    · cases hp : b.piece_at d with
      | some p =>
        rw [hp] at hhd
        dsimp only at hhd
        by_cases hop : p.color == color.opponent
        · rw [if_pos hop] at hhd
          exact ChessMove.promotions_shape src d m hhd
        · rw [if_neg hop] at hhd; simp at hhd
      | none =>
        rw [hp] at hhd
        simp at hhd
    · exact ih m htl

theorem pawnDiagCaptures_shape (b : Board) (src : ChessIndex) (color : Color) :
    ∀ (ds : List ChessIndex) (m : ChessMove), m ∈ pawnDiagCaptures b src color ds →
    ∃ dst, m = ChessMove.mkRegular src dst := by
  intro ds
  induction ds with
  | nil => intro m hm; simp [pawnDiagCaptures] at hm
  | cons d rest ih =>
    intro m hm
    unfold pawnDiagCaptures at hm
    rcases List.mem_append.mp hm with hhd | htl
    · cases hp : b.piece_at d with
      | some p =>
        rw [hp] at hhd
        dsimp only at hhd
        by_cases hop : p.color == color.opponent
        · rw [if_pos hop] at hhd
          rcases List.mem_singleton.mp hhd with rfl
          exact ⟨d, rfl⟩
        · rw [if_neg hop] at hhd; simp at hhd
      | none =>
        rw [hp] at hhd
        simp at hhd
    · exact ih m htl

theorem pawnForward_shape (b : Board) (src forward_idx : ChessIndex)
    (off : Int) (color : Color) (L : List ChessMove)
    (h : pawnForward b src forward_idx off color = some L) (m : ChessMove)
    (hm : m ∈ L) : ∃ dst, m = ChessMove.mkRegular src dst := by
  unfold pawnForward at h
  split at h
  · split at h
    · split at h
      · exact absurd h (by simp)
      · split at h
        · cases Option.some.inj h
          rcases List.mem_cons.mp hm with rfl | hm2
          · exact ⟨forward_idx, rfl⟩
          · rcases List.mem_singleton.mp hm2 with rfl
            exact ⟨_, rfl⟩
        · cases Option.some.inj h
          rcases List.mem_singleton.mp hm with rfl
          exact ⟨forward_idx, rfl⟩
    · cases Option.some.inj h
      rcases List.mem_singleton.mp hm with rfl
      exact ⟨forward_idx, rfl⟩
  · cases Option.some.inj h
    simp at hm

theorem pawnEnPassantLoop_shape (b : Board) (src : ChessIndex) (off : Int)
    (color : Color) :
    ∀ (others : List ChessIndex) (L : List ChessMove),
    pawnEnPassantLoop b src off color others = some L →
    ∀ m ∈ L, ∃ d t, m = ChessMove.mkEnPassant src d t := by
  intro others
  induction others with
  | nil =>
    intro L h m hm
    unfold pawnEnPassantLoop at h
    cases Option.some.inj h
    simp at hm
  | cons other rest ih =>
    intro L h m hm
    unfold pawnEnPassantLoop at h
    split at h
    · split at h
      · split at h
        · exact absurd h (by simp)
        · split at h
          · exact absurd h (by simp)
          · split at h
            · split at h
              · exact absurd h (by simp)
              · cases hrest : pawnEnPassantLoop b src off color rest with
                | none => rw [hrest] at h; simp at h
                | some L' =>
                  rw [hrest] at h
                  simp only [Option.map_some'] at h
                  cases Option.some.inj h
                  rcases List.mem_cons.mp hm with rfl | hmem
                  · exact ⟨_, _, rfl⟩
                  · exact ih L' hrest m hmem
            · exact ih L h m hm
      · exact ih L h m hm
    · exact ih L h m hm

theorem pawnEnPassant_shape (b : Board) (src : ChessIndex) (off : Int)
    (color : Color) (L : List ChessMove)
    (h : pawnEnPassant b src off color = some L) (m : ChessMove) (hm : m ∈ L) :
    ∃ d t, m = ChessMove.mkEnPassant src d t := by
  unfold pawnEnPassant at h
  split at h
  · exact pawnEnPassantLoop_shape b src off color _ L h m hm
  · cases Option.some.inj h
    simp at hm

theorem Game.valid_pawn_moves_shape (g : Game) (fi : ChessIndex) (color : Color)
    (L : List ChessMove) (h : g.valid_pawn_moves_from fi color = some L)
    (m : ChessMove) (hm : m ∈ L) : MoveSrcShape fi m := by
  unfold Game.valid_pawn_moves_from at h
  dsimp only at h
  generalize hoff : (match color with
    | Color.black => (-1 : Int)
    | Color.white => (1 : Int)) = off at h
  cases hfr : fi.rank.addInt off with
  | none =>
    rw [hfr] at h
    cases Option.some.inj h
    simp at hm
  | some forward_rank =>
    rw [hfr] at h
    dsimp only at h
    by_cases hpr : fi.rank.is_pawn_promotion_rank color = true
    · rw [if_pos hpr] at h
      cases hep : pawnEnPassant g.board fi off color with
      | none => rw [hep] at h; exact absurd h (by simp)
      | some ep =>
        rw [hep] at h
        dsimp only at h
        cases Option.some.inj h
        rcases List.mem_append.mp hm with hbase | hepm
        · rcases List.mem_append.mp hbase with hfwd | hcap
          · split at hfwd
            · obtain ⟨d, k, rfl⟩ := ChessMove.promotions_shape fi _ m hfwd
              exact rfl
            · simp at hfwd
          · obtain ⟨d, k, rfl⟩ := pawnPromoCaptures_shape g.board fi color _ m hcap
            exact rfl
        · obtain ⟨d, t, rfl⟩ := pawnEnPassant_shape g.board fi off color ep hep m hepm
          exact rfl
    · rw [if_neg hpr] at h
      cases hfw : pawnForward g.board fi ⟨fi.file, forward_rank⟩ off color with
      | none => rw [hfw] at h; exact absurd h (by simp)
      | some fw =>
        rw [hfw] at h
        simp only [Option.map_some'] at h
        cases hep : pawnEnPassant g.board fi off color with
        | none => rw [hep] at h; exact absurd h (by simp)
        | some ep =>
          rw [hep] at h
          dsimp only at h
          cases Option.some.inj h
          rcases List.mem_append.mp hm with hbase | hepm
          · rcases List.mem_append.mp hbase with hfwd | hcap
            · obtain ⟨d, rfl⟩ :=
                pawnForward_shape g.board fi _ off color fw hfw m hfwd
              exact rfl
            · obtain ⟨d, rfl⟩ := pawnDiagCaptures_shape g.board fi color _ m hcap
              exact rfl
          · obtain ⟨d, t, rfl⟩ := pawnEnPassant_shape g.board fi off color ep hep m hepm
            exact rfl

theorem Game.valid_moves_sound (g : Game) (fi : ChessIndex) (p : Piece)
    (ms : List ChessMove) (hp : g.board.piece_at fi = some p)
    (hv : g.valid_moves_from fi = some ms) :
    ∀ m ∈ ms, ∃ g', g.execute_move m = some g' ∧
      g'.is_king_checked p.color = false := by
  unfold Game.valid_moves_from at hv
  rw [hp] at hv
  dsimp only at hv
  cases hpt : p.piece_type with
  | pawn =>
    rw [hpt] at hv
    cases hpm : g.valid_pawn_moves_from fi p.color with
    | none => rw [hpm] at hv; exact absurd hv (by simp)
    | some gen =>
      rw [hpm] at hv
      dsimp only at hv
      refine filterLoop_sound g p.color gen g ms rfl (Or.inr ⟨rfl, ?_⟩) hv
      intro m hm hkr
      have hsh := Game.valid_pawn_moves_shape g fi p.color gen hpm m hm
      cases m with
      | regular rm =>
        obtain ⟨q, hq, hqk, _⟩ := hkr
        have : rm.from_idx = fi := hsh
        rw [this, hp] at hq
        cases Option.some.inj hq
        rw [hpt] at hqk
        exact absurd hqk (by simp)
      | castle cm => exact hsh
      | promotion pm => exact hkr
      | enPassant em => exact hkr
  | knight =>
    rw [hpt] at hv
    dsimp only at hv
    refine filterLoop_sound g p.color _ g ms rfl (Or.inr ⟨rfl, ?_⟩) hv
    intro m hm hkr
    obtain ⟨dst, rfl⟩ := Game.valid_knight_moves_shape g fi p.color m hm
    obtain ⟨q, hq, hqk, _⟩ := hkr
    rw [show (RegularMove.mk fi dst).from_idx = fi from rfl, hp] at hq
    cases Option.some.inj hq
    rw [hpt] at hqk
    exact absurd hqk (by simp)
  | bishop =>
    rw [hpt] at hv
    dsimp only at hv
    refine filterLoop_sound g p.color _ g ms rfl (Or.inr ⟨rfl, ?_⟩) hv
    intro m hm hkr
    obtain ⟨dst, rfl⟩ := Game.valid_bishop_moves_shape g fi p.color m hm
    obtain ⟨q, hq, hqk, _⟩ := hkr
    rw [show (RegularMove.mk fi dst).from_idx = fi from rfl, hp] at hq
    cases Option.some.inj hq
    rw [hpt] at hqk
    exact absurd hqk (by simp)
  | rook =>
    rw [hpt] at hv
    dsimp only at hv
    refine filterLoop_sound g p.color _ g ms rfl (Or.inr ⟨rfl, ?_⟩) hv
    intro m hm hkr
    obtain ⟨dst, rfl⟩ := Game.valid_rook_moves_shape g fi p.color m hm
    obtain ⟨q, hq, hqk, _⟩ := hkr
    rw [show (RegularMove.mk fi dst).from_idx = fi from rfl, hp] at hq
    cases Option.some.inj hq
    rw [hpt] at hqk
    exact absurd hqk (by simp)
  | queen =>
    rw [hpt] at hv
    dsimp only at hv
    refine filterLoop_sound g p.color _ g ms rfl (Or.inr ⟨rfl, ?_⟩) hv
    intro m hm hkr
    obtain ⟨dst, rfl⟩ := Game.valid_queen_moves_shape g fi p.color m hm
    obtain ⟨q, hq, hqk, _⟩ := hkr
    rw [show (RegularMove.mk fi dst).from_idx = fi from rfl, hp] at hq
    cases Option.some.inj hq
    rw [hpt] at hqk
    exact absurd hqk (by simp)
  | king =>
    rw [hpt] at hv
    dsimp only at hv
    refine filterLoop_sound g p.color _ g ms rfl (Or.inl ?_) hv
    intro m hm
    obtain ⟨dst, rfl⟩ := Game.valid_king_moves_shape g fi p.color m hm
    exact ⟨p, hp, hpt, rfl⟩

theorem Game.valid_moves_from_no_castle (g : Game) (fi : ChessIndex)
    (ms : List ChessMove) (hv : g.valid_moves_from fi = some ms) :
    ∀ m ∈ ms, m.is_castle = false := by
  unfold Game.valid_moves_from at hv
  cases hp : g.board.piece_at fi with
  | none =>
    rw [hp] at hv
    cases Option.some.inj hv
    intro m hm
    simp at hm
  | some p =>
    rw [hp] at hv
    dsimp only at hv
    intro m hm
    cases hpt : p.piece_type with
    | pawn =>
      rw [hpt] at hv
      cases hpm : g.valid_pawn_moves_from fi p.color with
      | none => rw [hpm] at hv; exact absurd hv (by simp)
      | some gen =>
        rw [hpm] at hv
        dsimp only at hv
        have hmem := filterLoop_mem p.color gen g ms hv m hm
        have hsh := Game.valid_pawn_moves_shape g fi p.color gen hpm m hmem
        cases m with
        | castle cm => exact hsh.elim
        | regular rm => rfl
        | promotion pm => rfl
        | enPassant em => rfl
    | knight =>
      rw [hpt] at hv
      dsimp only at hv
      obtain ⟨dst, rfl⟩ := Game.valid_knight_moves_shape g fi p.color m
        (filterLoop_mem p.color _ g ms hv m hm)
      rfl
    | bishop =>
      rw [hpt] at hv
      dsimp only at hv
      obtain ⟨dst, rfl⟩ := Game.valid_bishop_moves_shape g fi p.color m
        (filterLoop_mem p.color _ g ms hv m hm)
      rfl
    | rook =>
      rw [hpt] at hv
      dsimp only at hv
      obtain ⟨dst, rfl⟩ := Game.valid_rook_moves_shape g fi p.color m
        (filterLoop_mem p.color _ g ms hv m hm)
      rfl
    | queen =>
      rw [hpt] at hv
      dsimp only at hv
      obtain ⟨dst, rfl⟩ := Game.valid_queen_moves_shape g fi p.color m
        (filterLoop_mem p.color _ g ms hv m hm)
      rfl
    | king =>
      rw [hpt] at hv
      dsimp only at hv
      obtain ⟨dst, rfl⟩ := Game.valid_king_moves_shape g fi p.color m
        (filterLoop_mem p.color _ g ms hv m hm)
      rfl

theorem CBoard.execute_move_error (b : CBoard) (m : OldChessMove)
    (e : MovePieceError) (b' : CBoard)
    (h : b.execute_move m = some (Except.error e, b')) :
    b'.squares = b.squares ∧ b'.white_king = b.white_king ∧
    b'.black_king = b.black_king ∧ b'.previous = some b := by
  cases m with
  | regular rm =>
    unfold CBoard.execute_move at h
    dsimp only at h
    cases hmp : b.move_piece rm.from_idx rm.to_idx with
    | ok b1 =>
      rw [hmp] at h
      dsimp only at h
      have := Option.some.inj h
      exact absurd (congrArg Prod.fst this).symm (by simp)
    | error e' =>
      rw [hmp] at h
      dsimp only at h
      have hpair := Option.some.inj h
      have hb' := congrArg Prod.snd hpair
      dsimp only at hb'
      subst hb'
      cases b with
      | mk wk bk sq prev => exact ⟨rfl, rfl, rfl, rfl⟩
  | castle cm => exact absurd h (by simp [CBoard.execute_move])
  | promotion pm => exact absurd h (by simp [CBoard.execute_move])

theorem canCastleLoop_check (g : Game) (color : Color) (ki ri : ChessIndex) :
    ∀ (L : List ChessIndex) (s : ChessIndex),
    canCastleLoop g color ki ri L = some (CanCastleError.squareInCheck s) →
    s ∈ L ∧ g.is_checked s color = true := by
  intro L
  induction L with
  | nil => intro s h; simp [canCastleLoop] at h
  | cons i rest ih =>
    intro s h
    unfold canCastleLoop at h
    split at h
    · exact absurd (Option.some.inj h) (by simp)
    · split at h
      · rename_i hchk
        have := Option.some.inj h
        cases this
        exact ⟨List.mem_cons_self i rest, hchk⟩
      · obtain ⟨hmem, hchk⟩ := ih s h
        exact ⟨List.mem_cons_of_mem i hmem, hchk⟩

theorem Game.can_castle_check_in_span (g : Game) (ki ri s : ChessIndex)
    (h : g.can_castle ki ri = some (Except.error (CanCastleError.squareInCheck s))) :
    ∃ kp, g.board.piece_at ki = some kp ∧ s ∈ ChessIndex.indices_between ki ri ∧
      g.is_checked s kp.color = true := by
  unfold Game.can_castle at h
  cases hkp : g.board.piece_at ki with
  | none => rw [hkp] at h; simp at h
  | some king =>
    rw [hkp] at h
    cases hrp : g.board.piece_at ri with
    | none => rw [hrp] at h; simp at h
    | some rook =>
      rw [hrp] at h
      dsimp only at h
      split at h
      · split at h
        · exact absurd (Option.some.inj h) (by simp)
        · split at h
          · exact absurd (Option.some.inj h) (by simp)
          · split at h
            · rename_i e hloop
              have he := Option.some.inj h
              cases (Except.error.inj he)
              obtain ⟨hmem, hchk⟩ := canCastleLoop_check g king.color ki ri _ s hloop
              exact ⟨king, rfl, hmem, hchk⟩
            · split at h
              · split at h
                · exact absurd (Option.some.inj h) (by simp)
                · simp at h
              · split at h
                · exact absurd (Option.some.inj h) (by simp)
                · simp at h
      · exact absurd (Option.some.inj h) (by simp)

theorem Board.enemy_kings_only_spec (b : Board) (c : Color)
    (h : b.enemy_kings_only c = true) (i : ChessIndex) (q : Piece)
    (hq : b.piece_at i = some q) (hcol : q.color = c.opponent) :
    q.piece_type = PieceType.king := by
  unfold Board.piece_at at hq
  rw [List.getD_eq_getElem?_getD] at hq
  cases hget : b[i.linear]? with
  | none => rw [hget] at hq; simp at hq
  | some oq =>
    rw [hget] at hq
    simp at hq
    subst hq
    have hmem : some q ∈ b := List.getElem?_mem hget
    have := (List.all_eq_true.mp h) (some q) hmem
    simp [hcol] at this
    exact this

theorem Board.scan_ray_none (b : Board) (pred : Piece → Bool)
    (hpred : ∀ i q, b.piece_at i = some q → pred q = false) :
    ∀ cells, b.scan_ray cells pred = none := by
  intro cells
  induction cells with
  | nil => rfl
  | cons i rest ih =>
    unfold Board.scan_ray
    cases hp : b.piece_at i with
    | some p =>
      dsimp only
      simp [hpred i p hp]
    | none =>
      dsimp only
      exact ih

theorem Board.first_offset_hit_none (b : Board) (start : ChessIndex)
    (pred : Piece → Bool)
    (hpred : ∀ i q, b.piece_at i = some q → pred q = false) :
    ∀ offs, b.first_offset_hit start offs pred = none := by
  intro offs
  induction offs with
  | nil => rfl
  | cons o rest ih =>
    unfold Board.first_offset_hit
    rcases o with ⟨fo, ro⟩
    cases hti : ChessIndex.try_from_pair ((start.file.toNat : Int) + fo)
        ((start.rank.toNat : Int) + ro) with
    | some i =>
      cases hp : b.piece_at i with
      | some p => simp [hp, hpred i p hp, ih]
      | none => simp [hp, ih]
    | none => exact ih

theorem Game.enemy_kings_only_not_checked (g : Game) (i : ChessIndex) (c : Color)
    (h : g.board.enemy_kings_only c = true) : g.is_checked i c = false := by
  have hknight : ∀ j q, g.board.piece_at j = some q →
      (q.piece_type == PieceType.knight && q.color == c.opponent) = false := by
    intro j q hq
    by_cases hcol : q.color = c.opponent
    · have := Board.enemy_kings_only_spec g.board c h j q hq hcol
      simp [this]
    · simp [hcol]
  have hpawn : ∀ j q, g.board.piece_at j = some q →
      (q.piece_type == PieceType.pawn && q.color == c.opponent) = false := by
    intro j q hq
    by_cases hcol : q.color = c.opponent
    · have := Board.enemy_kings_only_spec g.board c h j q hq hcol
      simp [this]
    · simp [hcol]
  have hbishop : ∀ j q, g.board.piece_at j = some q →
      (q.piece_type == PieceType.bishop && q.color == c.opponent) = false := by
    intro j q hq
    by_cases hcol : q.color = c.opponent
    · have := Board.enemy_kings_only_spec g.board c h j q hq hcol
      simp [this]
    · simp [hcol]
  have hrook : ∀ j q, g.board.piece_at j = some q →
      (q.piece_type == PieceType.rook && q.color == c.opponent) = false := by
    intro j q hq
    by_cases hcol : q.color = c.opponent
    · have := Board.enemy_kings_only_spec g.board c h j q hq hcol
      simp [this]
    · simp [hcol]
  have hqueen : ∀ j q, g.board.piece_at j = some q →
      (q.piece_type == PieceType.queen && q.color == c.opponent) = false := by
    intro j q hq
    by_cases hcol : q.color = c.opponent
    · have := Board.enemy_kings_only_spec g.board c h j q hq hcol
      simp [this]
    · simp [hcol]
  unfold Game.is_checked Game.is_checked_by_knight Game.is_checked_by_pawn
    Game.is_checked_by_bishop Game.is_checked_by_rook Game.is_checked_by_queen
  cases c <;>
    simp [Board.scan_ray_none _ _ hknight, Board.first_offset_hit_none _ _ _ hknight,
      Board.scan_ray_none _ _ hpawn, Board.first_offset_hit_none _ _ _ hpawn,
      Board.scan_ray_none _ _ hbishop, Board.first_offset_hit_none _ _ _ hbishop,
      Board.scan_ray_none _ _ hrook, Board.first_offset_hit_none _ _ _ hrook,
      Board.scan_ray_none _ _ hqueen, Board.first_offset_hit_none _ _ _ hqueen]

theorem movesAlongAux_dest (b : Board) (start : ChessIndex) (color : Color) :
    ∀ (cells : List ChessIndex) (m : ChessMove),
    m ∈ movesAlongAux b start cells color → m.dest_own_free b color = true := by
  intro cells
  induction cells with
  | nil => intro m hm; simp [movesAlongAux] at hm
  | cons i rest ih =>
    intro m hm
    unfold movesAlongAux at hm
    cases hp : b.piece_at i with
    | some p =>
      rw [hp] at hm
      dsimp only at hm
      by_cases hop : p.color == color.opponent
      · rw [if_pos hop] at hm
        rcases List.mem_singleton.mp hm with rfl
        have hpc : p.color = color.opponent := by simpa using hop
        simp [ChessMove.dest_own_free, ChessMove.mkRegular, hp, hpc,
          Color.opponent_ne color]
      · rw [if_neg hop] at hm
        simp at hm
    | none =>
      rw [hp] at hm
      dsimp only at hm
      rcases List.mem_cons.mp hm with rfl | hmem
      · simp [ChessMove.dest_own_free, ChessMove.mkRegular, hp]
      · exact ih m hmem

theorem offsetMovesAux_dest (b : Board) (src : ChessIndex) (color : Color) :
    ∀ (offs : List (Int × Int)) (m : ChessMove),
    m ∈ offsetMovesAux b src offs color → m.dest_own_free b color = true := by
  intro offs
  induction offs with
  | nil => intro m hm; simp [offsetMovesAux] at hm
  | cons o rest ih =>
    intro m hm
    unfold offsetMovesAux at hm
    rcases o with ⟨fo, ro⟩
    cases hti : ChessIndex.try_from_pair ((src.file.toNat : Int) + fo)
        ((src.rank.toNat : Int) + ro) with
    | some i =>
      rw [hti] at hm
      dsimp only at hm
      rcases List.mem_append.mp hm with hhd | htl
      · cases hp : b.piece_at i with
        | some p =>
          rw [hp] at hhd
          dsimp only at hhd
          by_cases hown : p.color == color
          · rw [if_pos hown] at hhd; simp at hhd
          · rw [if_neg hown] at hhd
            rcases List.mem_singleton.mp hhd with rfl
            simp only [ChessMove.dest_own_free, ChessMove.mkRegular, hp]
            simpa using hown
        | none =>
          rw [hp] at hhd
          dsimp only at hhd
          rcases List.mem_singleton.mp hhd with rfl
          simp [ChessMove.dest_own_free, ChessMove.mkRegular, hp]
      · exact ih m htl
    | none =>
      rw [hti] at hm
      dsimp only at hm
      exact ih m hm

theorem kingStep_dest (b : Board) (src : ChessIndex) (dst? : Option ChessIndex)
    (color : Color) (m : ChessMove) (hm : m ∈ kingStep b src dst? color) :
    m.dest_own_free b color = true := by
  unfold kingStep at hm
  cases dst? with
  | none => simp at hm
  | some dst =>
    dsimp only at hm
    cases hp : b.piece_at dst with
    | some p =>
      rw [hp] at hm
      dsimp only at hm
      by_cases hown : p.color == color
      · rw [if_pos hown] at hm; simp at hm
      · rw [if_neg hown] at hm
        rcases List.mem_singleton.mp hm with rfl
        simp only [ChessMove.dest_own_free, ChessMove.mkRegular, hp]
        simpa using hown
    | none =>
      rw [hp] at hm
      dsimp only at hm
      rcases List.mem_singleton.mp hm with rfl
      simp [ChessMove.dest_own_free, ChessMove.mkRegular, hp]

theorem ChessMove.promotions_dest (b : Board) (color : Color) (src dst : ChessIndex)
    (hdst : (b.piece_at dst).isNone = true ∨
      ∃ q, b.piece_at dst = some q ∧ q.color = color.opponent)
    (m : ChessMove) (hm : m ∈ ChessMove.promotions src dst) :
    m.dest_own_free b color = true := by
  have hfree : ∀ pm : PromotionMove, pm.to_idx = dst →
      ChessMove.dest_own_free b color (ChessMove.promotion pm) = true := by
    intro pm hto
    rcases hdst with hnone | ⟨q, hq, hqc⟩
    · simp only [ChessMove.dest_own_free, hto]
      cases hp : b.piece_at dst with
      | some p => rw [hp] at hnone; simp at hnone
      | none => rfl
    · simp only [ChessMove.dest_own_free, hto, hq]
      simp [hqc, Color.opponent_ne color]
  unfold ChessMove.promotions at hm
  simp only [List.mem_cons, List.not_mem_nil, or_false] at hm
  rcases hm with rfl | rfl | rfl | rfl <;> exact hfree _ rfl

theorem pawnPromoCaptures_dest (b : Board) (src : ChessIndex) (color : Color) :
    ∀ (ds : List ChessIndex) (m : ChessMove), m ∈ pawnPromoCaptures b src color ds →
    m.dest_own_free b color = true := by
  intro ds
  induction ds with
  | nil => intro m hm; simp [pawnPromoCaptures] at hm
  | cons d rest ih =>
    intro m hm
    unfold pawnPromoCaptures at hm
    rcases List.mem_append.mp hm with hhd | htl
    · cases hp : b.piece_at d with
      | some p =>
        rw [hp] at hhd
        dsimp only at hhd
        by_cases hop : p.color == color.opponent
        · rw [if_pos hop] at hhd
          exact ChessMove.promotions_dest b color src d
            (Or.inr ⟨p, hp, by simpa using hop⟩) m hhd
        · rw [if_neg hop] at hhd; simp at hhd
      | none =>
        rw [hp] at hhd
        simp at hhd
    · exact ih m htl

theorem pawnDiagCaptures_dest (b : Board) (src : ChessIndex) (color : Color) :
    ∀ (ds : List ChessIndex) (m : ChessMove), m ∈ pawnDiagCaptures b src color ds →
    m.dest_own_free b color = true := by
  intro ds
  induction ds with
  | nil => intro m hm; simp [pawnDiagCaptures] at hm
  | cons d rest ih =>
    intro m hm
    unfold pawnDiagCaptures at hm
    rcases List.mem_append.mp hm with hhd | htl
    · cases hp : b.piece_at d with
      | some p =>
        rw [hp] at hhd
        dsimp only at hhd
        by_cases hop : p.color == color.opponent
        · rw [if_pos hop] at hhd
          rcases List.mem_singleton.mp hhd with rfl
          have hpc : p.color = color.opponent := by simpa using hop
          simp [ChessMove.dest_own_free, ChessMove.mkRegular, hp, hpc,
            Color.opponent_ne color]
        · rw [if_neg hop] at hhd; simp at hhd
      | none =>
        rw [hp] at hhd
        simp at hhd
    · exact ih m htl

theorem pawnForward_dest (b : Board) (src forward_idx : ChessIndex)
    (off : Int) (color : Color) (L : List ChessMove)
    (h : pawnForward b src forward_idx off color = some L) (m : ChessMove)
    (hm : m ∈ L) : m.dest_own_free b color = true := by
  unfold pawnForward at h
  split at h
  · rename_i hfwd
    split at h
    · split at h
      · exact absurd h (by simp)
      · split at h
        · rename_i rr hrr hdouble
          cases Option.some.inj h
          rcases List.mem_cons.mp hm with rfl | hm2
          · simp only [ChessMove.dest_own_free, ChessMove.mkRegular]
            cases hp : b.piece_at forward_idx with
            | some p => rw [hp] at hfwd; simp at hfwd
            | none => rfl
          · rcases List.mem_singleton.mp hm2 with rfl
            simp only [ChessMove.dest_own_free, ChessMove.mkRegular]
            cases hp : b.piece_at ⟨src.file, rr⟩ with
            | some p => rw [hp] at hdouble; simp at hdouble
            | none => rfl
        · cases Option.some.inj h
          rcases List.mem_singleton.mp hm with rfl
          simp only [ChessMove.dest_own_free, ChessMove.mkRegular]
          cases hp : b.piece_at forward_idx with
          | some p => rw [hp] at hfwd; simp at hfwd
          | none => rfl
    · cases Option.some.inj h
      rcases List.mem_singleton.mp hm with rfl
      simp only [ChessMove.dest_own_free, ChessMove.mkRegular]
      cases hp : b.piece_at forward_idx with
      | some p => rw [hp] at hfwd; simp at hfwd
      | none => rfl
  · cases Option.some.inj h
    simp at hm

theorem Game.valid_pawn_moves_dest (g : Game) (fi : ChessIndex) (color : Color)
    (L : List ChessMove) (h : g.valid_pawn_moves_from fi color = some L)
    (m : ChessMove) (hm : m ∈ L) : m.dest_own_free g.board color = true := by
  unfold Game.valid_pawn_moves_from at h
  dsimp only at h
  generalize hoff : (match color with
    | Color.black => (-1 : Int)
    | Color.white => (1 : Int)) = off at h
  cases hfr : fi.rank.addInt off with
  | none =>
    rw [hfr] at h
    cases Option.some.inj h
    simp at hm
  | some forward_rank =>
    rw [hfr] at h
    dsimp only at h
    by_cases hpr : fi.rank.is_pawn_promotion_rank color = true
    · rw [if_pos hpr] at h
      cases hep : pawnEnPassant g.board fi off color with
      | none => rw [hep] at h; exact absurd h (by simp)
      | some ep =>
        rw [hep] at h
        dsimp only at h
        cases Option.some.inj h
        rcases List.mem_append.mp hm with hbase | hepm
        · rcases List.mem_append.mp hbase with hfwd | hcap
          · split at hfwd
            · rename_i hempty
              exact ChessMove.promotions_dest g.board color fi _ (Or.inl hempty) m hfwd
            · simp at hfwd
          · exact pawnPromoCaptures_dest g.board fi color _ m hcap
        · obtain ⟨d, t, rfl⟩ := pawnEnPassant_shape g.board fi off color ep hep m hepm
          rfl
    · rw [if_neg hpr] at h
      cases hfw : pawnForward g.board fi ⟨fi.file, forward_rank⟩ off color with
      | none => rw [hfw] at h; exact absurd h (by simp)
      | some fw =>
        rw [hfw] at h
        simp only [Option.map_some'] at h
        cases hep : pawnEnPassant g.board fi off color with
        | none => rw [hep] at h; exact absurd h (by simp)
        | some ep =>
          rw [hep] at h
          dsimp only at h
          cases Option.some.inj h
          rcases List.mem_append.mp hm with hbase | hepm
          · rcases List.mem_append.mp hbase with hfwd | hcap
            · exact pawnForward_dest g.board fi _ off color fw hfw m hfwd
            · exact pawnDiagCaptures_dest g.board fi color _ m hcap
          · obtain ⟨d, t, rfl⟩ := pawnEnPassant_shape g.board fi off color ep hep m hepm
            rfl

theorem char_ofNat_eq_iff (b : Nat) (c : Char) (hc : c.toNat ≠ 0) :
    Char.ofNat b = c ↔ b = c.toNat := by
  constructor
  · intro h
    have h2 := congrArg Char.toNat h
    by_cases hv : b.isValidChar
    · simpa [Char.ofNat, hv, Char.ofNatAux, Char.toNat, UInt32.toNat,
        BitVec.toNat_ofNatLt] using h2
    · rw [show (Char.ofNat b).toNat = 0 by
        simp [Char.ofNat, hv, Char.toNat, UInt32.toNat, BitVec.toNat_ofNatLt]] at h2
      exact absurd h2.symm hc
  · intro h
    subst h
    exact Char.ofNat_toNat c

theorem file_try_from_char_byte (b : Nat) :
    (File.try_from_char (Char.ofNat b)).isSome = true ↔ b ∈ fileLetterBytes := by
  unfold File.try_from_char fileLetterBytes
  simp only [char_ofNat_eq_iff b 'a' (by decide), char_ofNat_eq_iff b 'A' (by decide),
    char_ofNat_eq_iff b 'b' (by decide), char_ofNat_eq_iff b 'B' (by decide),
    char_ofNat_eq_iff b 'c' (by decide), char_ofNat_eq_iff b 'C' (by decide),
    char_ofNat_eq_iff b 'd' (by decide), char_ofNat_eq_iff b 'D' (by decide),
    char_ofNat_eq_iff b 'e' (by decide), char_ofNat_eq_iff b 'E' (by decide),
    char_ofNat_eq_iff b 'f' (by decide), char_ofNat_eq_iff b 'F' (by decide),
    char_ofNat_eq_iff b 'g' (by decide), char_ofNat_eq_iff b 'G' (by decide),
    char_ofNat_eq_iff b 'h' (by decide), char_ofNat_eq_iff b 'H' (by decide),
    List.mem_cons, List.not_mem_nil, or_false]
  show ((if b = 97 ∨ b = 65 then some File.a
    else if b = 98 ∨ b = 66 then some File.b
    else if b = 99 ∨ b = 67 then some File.c
    else if b = 100 ∨ b = 68 then some File.d
    else if b = 101 ∨ b = 69 then some File.e
    else if b = 102 ∨ b = 70 then some File.f
    else if b = 103 ∨ b = 71 then some File.g
    else if b = 104 ∨ b = 72 then some File.h
    else none).isSome = true) ↔ _
  constructor
  · intro h
    by_contra hmem
    push_neg at hmem
    simp [hmem] at h
  · intro hmem
    rcases hmem with h | h | h | h | h | h | h | h | h | h | h | h | h | h | h | h <;>
      subst h <;> decide

theorem rank_try_from_char_byte (b : Nat) :
    (Rank.try_from_char (Char.ofNat b)).isSome = true ↔ b ∈ rankDigitBytes := by
  unfold Rank.try_from_char rankDigitBytes
  simp only [char_ofNat_eq_iff b '1' (by decide), char_ofNat_eq_iff b '2' (by decide),
    char_ofNat_eq_iff b '3' (by decide), char_ofNat_eq_iff b '4' (by decide),
    char_ofNat_eq_iff b '5' (by decide), char_ofNat_eq_iff b '6' (by decide),
    char_ofNat_eq_iff b '7' (by decide), char_ofNat_eq_iff b '8' (by decide),
    List.mem_cons, List.not_mem_nil, or_false]
  constructor
  · intro h
    by_contra hmem
    push_neg at hmem
    simp [hmem] at h
  · intro hmem
    rcases hmem with h | h | h | h | h | h | h | h <;> subst h <;> decide

theorem chess_index_from_str_spec (s : List Nat) :
    ((∃ ci, ChessIndex.from_str s = Except.ok ci) ↔
      ∃ b0 b1, s = [b0, b1] ∧ b0 ∈ fileLetterBytes ∧ b1 ∈ rankDigitBytes) ∧
    (s.length ≠ 2 → ChessIndex.from_str s = Except.error ParseChessIndexError.lengthNot2) ∧
    (∀ b0 b1, s = [b0, b1] → b0 ∉ fileLetterBytes →
      ChessIndex.from_str s = Except.error
        (ParseChessIndexError.invalidFile (Char.ofNat b0))) ∧
    (∀ b0 b1, s = [b0, b1] → b0 ∈ fileLetterBytes → b1 ∉ rankDigitBytes →
      ChessIndex.from_str s = Except.error
        (ParseChessIndexError.invalidRank (Char.ofNat b1))) := by
  refine ⟨?_, ?_, ?_, ?_⟩
  · constructor
    · rintro ⟨ci, hci⟩
      unfold ChessIndex.from_str at hci
      split at hci
      · exact absurd hci (by simp)
      · rename_i hlen
        have h2 : s.length = 2 := by omega
        match s, h2 with
        | [b0, b1], _ =>
          dsimp only at hci
          simp only [List.getD_cons_zero, List.getD_cons_succ] at hci
          refine ⟨b0, b1, rfl, ?_, ?_⟩
          · rw [← file_try_from_char_byte b0]
            cases hf : File.try_from_char (Char.ofNat b0) with
            | none => rw [hf] at hci; exact absurd hci (by simp)
            | some fl => rfl
          · rw [← rank_try_from_char_byte b1]
            cases hf : File.try_from_char (Char.ofNat b0) with
            | none => rw [hf] at hci; exact absurd hci (by simp)
            | some fl =>
              rw [hf] at hci
              dsimp only at hci
              cases hr : Rank.try_from_char (Char.ofNat b1) with
              | none => rw [hr] at hci; exact absurd hci (by simp)
              | some r => rfl
    · rintro ⟨b0, b1, rfl, hb0, hb1⟩
      unfold ChessIndex.from_str
      rw [if_neg (by simp)]
      dsimp only
      simp only [List.getD_cons_zero, List.getD_cons_succ]
      obtain ⟨fl, hfl⟩ := Option.isSome_iff_exists.mp ((file_try_from_char_byte b0).mpr hb0)
      obtain ⟨r, hr⟩ := Option.isSome_iff_exists.mp ((rank_try_from_char_byte b1).mpr hb1)
      rw [hfl]
      dsimp only
      rw [hr]
      exact ⟨⟨fl, r⟩, rfl⟩
  · intro hlen
    unfold ChessIndex.from_str
    rw [if_pos hlen]
  · rintro b0 b1 rfl hb0
    unfold ChessIndex.from_str
    rw [if_neg (by simp)]
    dsimp only
    simp only [List.getD_cons_zero, List.getD_cons_succ]
    cases hf : File.try_from_char (Char.ofNat b0) with
    | none => rfl
    | some fl =>
      exact absurd ((file_try_from_char_byte b0).mp (by simp [hf])) hb0
  · rintro b0 b1 rfl hb0 hb1
    unfold ChessIndex.from_str
    rw [if_neg (by simp)]
    dsimp only
    simp only [List.getD_cons_zero, List.getD_cons_succ]
    obtain ⟨fl, hfl⟩ := Option.isSome_iff_exists.mp ((file_try_from_char_byte b0).mpr hb0)
    rw [hfl]
    dsimp only
    cases hr : Rank.try_from_char (Char.ofNat b1) with
    | none => rfl
    | some r =>
      exact absurd ((rank_try_from_char_byte b1).mp (by simp [hr])) hb1

theorem Game.valid_knight_moves_dest (g : Game) (src : ChessIndex) (color : Color)
    (m : ChessMove) (hm : m ∈ g.valid_knight_moves_from src color) :
    m.dest_own_free g.board color = true := by
  unfold Game.valid_knight_moves_from at hm
  exact offsetMovesAux_dest _ _ _ _ m hm

theorem Game.valid_king_moves_dest (g : Game) (src : ChessIndex) (color : Color)
    (m : ChessMove) (hm : m ∈ g.valid_king_moves_from src color) :
    m.dest_own_free g.board color = true := by
  unfold Game.valid_king_moves_from at hm
  simp only [List.mem_append] at hm
  rcases hm with ((((((hm | hm) | hm) | hm) | hm) | hm) | hm) | hm <;>
    exact kingStep_dest _ _ _ _ m hm

theorem Game.valid_rook_moves_dest (g : Game) (src : ChessIndex) (color : Color)
    (m : ChessMove) (hm : m ∈ g.valid_rook_moves_from src color) :
    m.dest_own_free g.board color = true := by
  unfold Game.valid_rook_moves_from Game.moves_to_opponents_piece at hm
  simp only [List.mem_append] at hm
  rcases hm with ((hm | hm) | hm) | hm <;>
    exact movesAlongAux_dest _ _ _ _ m hm

theorem Game.valid_bishop_moves_dest (g : Game) (src : ChessIndex) (color : Color)
    (m : ChessMove) (hm : m ∈ g.valid_bishop_moves_from src color) :
    m.dest_own_free g.board color = true := by
  unfold Game.valid_bishop_moves_from Game.moves_to_opponents_piece at hm
  simp only [List.mem_append] at hm
  rcases hm with ((hm | hm) | hm) | hm <;>
    exact movesAlongAux_dest _ _ _ _ m hm

theorem Game.valid_queen_moves_dest (g : Game) (src : ChessIndex) (color : Color)
    (m : ChessMove) (hm : m ∈ g.valid_queen_moves_from src color) :
    m.dest_own_free g.board color = true := by
  unfold Game.valid_queen_moves_from at hm
  rcases List.mem_append.mp hm with hm | hm
  · exact Game.valid_rook_moves_dest g src color m hm
  · exact Game.valid_bishop_moves_dest g src color m hm

/-- C1: every move returned by the legality filter valid_moves_from, when
executed on the queried state, leaves the moving side with its king not in
check: is_king_checked for the color of the moved piece returns false on
the resulting state. -/
theorem c1_valid_moves_leave_king_unchecked (g : Game) (fi : ChessIndex)
    (p : Piece) (ms : List ChessMove) (hp : g.board.piece_at fi = some p)
    (hv : g.valid_moves_from fi = some ms) (m : ChessMove) (hm : m ∈ ms) :
    ∃ g', g.execute_move m = some g' ∧ g'.is_king_checked p.color = false :=
  Game.valid_moves_sound g fi p ms hp hv m hm

/-- Witness for C1 at the initial position: the pawn on E2 is offered
exactly the moves E2-E3 and E2-E4, and instantiating the theorem at E2-E4
yields the concrete guarantee. -/
theorem c1_valid_moves_leave_king_unchecked_witness :
    Game.mkDefault.board.piece_at E2 = some ⟨PieceType.pawn, Color.white, [E2]⟩ ∧
    Game.mkDefault.valid_moves_from E2 =
      some [ChessMove.mkRegular E2 E3, ChessMove.mkRegular E2 E4] ∧
    ∃ g', Game.mkDefault.execute_move (ChessMove.mkRegular E2 E4) = some g' ∧
      g'.is_king_checked Color.white = false :=
  ⟨by decide, by decide,
   c1_valid_moves_leave_king_unchecked Game.mkDefault E2
     ⟨PieceType.pawn, Color.white, [E2]⟩
     [ChessMove.mkRegular E2 E3, ChessMove.mkRegular E2 E4]
     (by decide) (by decide) (ChessMove.mkRegular E2 E4) (by decide)⟩

/-- C2: the en passant offer never expires.  Every move of the scenario
D2-D4, H7-H6, D4-D5, E7-E5, A2-A3, H6-H5 is taken from valid_moves_from at
its turn; immediately after the double step E7-E5 the white pawn on D5 is
rightly offered the en passant capture onto E6, but the very same offer is
still returned after the further move A2-A3 and again after H6-H5, because
valid_pawn_moves_from reads only the neighbouring pawn piece history and
no notion of when the double step happened. -/
theorem c2_en_passant_never_expires :
    ((Game.mkDefault.valid_moves_from D2).getD []).contains
      (ChessMove.mkRegular D2 D4) = true ∧
    ((c2_g1.bind (fun g => g.valid_moves_from H7)).getD []).contains
      (ChessMove.mkRegular H7 H6) = true ∧
    ((c2_g2.bind (fun g => g.valid_moves_from D4)).getD []).contains
      (ChessMove.mkRegular D4 D5) = true ∧
    ((c2_g3.bind (fun g => g.valid_moves_from E7)).getD []).contains
      (ChessMove.mkRegular E7 E5) = true ∧
    ((c2_g4.bind (fun g => g.valid_moves_from A2)).getD []).contains
      (ChessMove.mkRegular A2 A3) = true ∧
    ((c2_g5.bind (fun g => g.valid_moves_from H6)).getD []).contains
      (ChessMove.mkRegular H6 H5) = true ∧
    (c2_g4.bind (fun g => g.valid_moves_from D5)) =
      some [ChessMove.mkRegular D5 D6, ChessMove.mkEnPassant D5 E6 E5] ∧
    (c2_g5.bind (fun g => g.valid_moves_from D5)) =
      some [ChessMove.mkRegular D5 D6, ChessMove.mkEnPassant D5 E6 E5] ∧
    (c2_g6.bind (fun g => g.valid_moves_from D5)) =
      some [ChessMove.mkRegular D5 D6, ChessMove.mkEnPassant D5 E6 E5] := by
  refine ⟨?_, ?_, ?_, ?_, ?_, ?_, ?_, ?_, ?_⟩ <;> decide

/-- C3: undo_last_move restores only the board, never the stored king
squares.  After E2-E4 the filtered list at E1 offers the king step E1-E2;
executing it sets white_king to E2, and undoing restores the board of the
position after E2-E4 (white king standing on E1, E2 empty) while white_king
still reads E2 -- a square that is empty on the restored board.  The
initial position is already inconsistent on the black side: black_king
reads E7, a square holding a pawn, while the black king stands on E8. -/
theorem c3_undo_king_fields_stale :
    ((c3_g1.bind (fun g => g.valid_moves_from E1)).getD []).contains
      (ChessMove.mkRegular E1 E2) = true ∧
    c3_g2.map (fun g => g.white_king) = some E2 ∧
    c3_after_undo.map (fun g => g.board) = c3_g1.map (fun g => g.board) ∧
    c3_after_undo.map (fun g => g.white_king) = some E2 ∧
    c3_after_undo.map (fun g => g.board.piece_at E2) = some none ∧
    c3_after_undo.map (fun g => (g.board.piece_at E1).map Piece.piece_type) =
      some (some PieceType.king) ∧
    Game.mkDefault.black_king = E7 ∧
    (Game.mkDefault.board.piece_at E8).map Piece.piece_type =
      some (some PieceType.king) := by
  refine ⟨?_, ?_, ?_, ?_, ?_, ?_, ?_, ?_⟩ <;> decide

/-- Counterexample for C4: on the default board the regular move E3-E4 has
no piece to move, so execute_move reports NoPieceToMove -- yet the board it
returns has its previous field newly filled with the pre-call snapshot,
although it was empty before the call.  The failing call does mutate
state. -/
theorem c4_counterexample :
    CBoard.mkDefault.previous.isSome = false ∧
    (CBoard.mkDefault.execute_move (OldChessMove.regular ⟨E3, E4, none⟩)).map
        (fun pr => (pr.1, pr.2.previous.isSome)) =
      some (Except.error (MovePieceError.noPieceToMove E3), true) := by
  refine ⟨?_, ?_⟩ <;> decide

/-- C4: amended -- move_piece fails before any mutation, so when
execute_move returns an error the squares and both stored king squares of
the resulting board equal those before the call; the previous-board field,
however, is overwritten with a snapshot of the pre-call state even on this
error path, so execution is not atomic in the stored history. -/
theorem c4_error_leaves_board_but_overwrites_previous (b : CBoard)
    (m : OldChessMove) (e : MovePieceError) (b' : CBoard)
    (h : b.execute_move m = some (Except.error e, b')) :
    b'.squares = b.squares ∧ b'.white_king = b.white_king ∧
      b'.black_king = b.black_king ∧ b'.previous = some b :=
  CBoard.execute_move_error b m e b' h

/-- Witness for C4 on the default board with the failing move E3-E4. -/
theorem c4_error_leaves_board_but_overwrites_previous_witness :
    (CBoard.set_previous CBoard.mkDefault (some CBoard.mkDefault)).squares =
      CBoard.mkDefault.squares ∧
    (CBoard.set_previous CBoard.mkDefault (some CBoard.mkDefault)).white_king =
      CBoard.mkDefault.white_king ∧
    (CBoard.set_previous CBoard.mkDefault (some CBoard.mkDefault)).black_king =
      CBoard.mkDefault.black_king ∧
    (CBoard.set_previous CBoard.mkDefault (some CBoard.mkDefault)).previous =
      some CBoard.mkDefault :=
  c4_error_leaves_board_but_overwrites_previous CBoard.mkDefault
    (OldChessMove.regular ⟨E3, E4, none⟩) (MovePieceError.noPieceToMove E3)
    (CBoard.set_previous CBoard.mkDefault (some CBoard.mkDefault)) (by rfl)

/-- C5: executing a move obtained from valid_moves_from and then calling
undo_last_move yields a board equal piece for piece to the board before
the move. -/
theorem c5_execute_then_undo_restores_board (g : Game) (fi : ChessIndex)
    (p : Piece) (ms : List ChessMove) (hp : g.board.piece_at fi = some p)
    (hv : g.valid_moves_from fi = some ms) (m : ChessMove) (hm : m ∈ ms) :
    ∃ g', g.execute_move m = some g' ∧ g'.undo_last_move.board = g.board := by
  obtain ⟨g', hg', _⟩ := Game.valid_moves_sound g fi p ms hp hv m hm
  exact ⟨g', hg', (Game.undo_after_execute g m g' hg').1⟩

/-- Witness for C5 at the initial position with the pawn move D2-D3. -/
theorem c5_execute_then_undo_restores_board_witness :
    Game.mkDefault.board.piece_at D2 = some ⟨PieceType.pawn, Color.white, [D2]⟩ ∧
    Game.mkDefault.valid_moves_from D2 =
      some [ChessMove.mkRegular D2 D3, ChessMove.mkRegular D2 D4] ∧
    ∃ g', Game.mkDefault.execute_move (ChessMove.mkRegular D2 D3) = some g' ∧
      g'.undo_last_move.board = Game.mkDefault.board :=
  ⟨by decide, by decide,
   c5_execute_then_undo_restores_board Game.mkDefault D2
     ⟨PieceType.pawn, Color.white, [D2]⟩
     [ChessMove.mkRegular D2 D3, ChessMove.mkRegular D2 D4]
     (by decide) (by decide) (ChessMove.mkRegular D2 D3) (by decide)⟩

/-- Counterexample for C6: in c6_game the king path of the queen-side
castle E1-A1 is E1, D1, C1 (indices_between of the king start and its
destination), and none of those squares is attacked; the only attacked
square of the span is B1, which the king never crosses, yet can_castle
fails with SquareInCheck B1. -/
theorem c6_counterexample :
    c6_game.can_castle E1 A1 =
      some (Except.error (CanCastleError.squareInCheck B1)) ∧
    ChessIndex.indices_between E1 C1 = [E1, D1, C1] ∧
    c6_game.is_checked E1 Color.white = false ∧
    c6_game.is_checked D1 Color.white = false ∧
    c6_game.is_checked C1 Color.white = false := by
  refine ⟨?_, ?_, ?_, ?_, ?_⟩ <;> decide

/-- C6: amended -- when can_castle fails with SquareInCheck s, the square s
is indeed attacked for the castling color, but it is only known to lie on
the inclusive king-rook span indices_between(king, rook): the loop tests
every square of that span, including the rook square and, queen-side, the
file-b square the king never crosses, not merely the squares the king
passes through. -/
theorem c6_square_in_check_anywhere_on_span (g : Game) (ki ri s : ChessIndex)
    (h : g.can_castle ki ri =
      some (Except.error (CanCastleError.squareInCheck s))) :
    ∃ kp, g.board.piece_at ki = some kp ∧
      s ∈ ChessIndex.indices_between ki ri ∧ g.is_checked s kp.color = true :=
  Game.can_castle_check_in_span g ki ri s h

/-- Witness for C6 in c6_game, where the reported square is B1. -/
theorem c6_square_in_check_anywhere_on_span_witness :
    ∃ kp, c6_game.board.piece_at E1 = some kp ∧
      B1 ∈ ChessIndex.indices_between E1 A1 ∧
      c6_game.is_checked B1 kp.color = true :=
  c6_square_in_check_anywhere_on_span c6_game E1 A1 B1 (by decide)

/-- Counterexample for C7: in c7_game white king-side castling is accepted
by can_castle (it returns the castle E1 to G1 with the H1 rook to F1), yet
valid_moves_from on the king square returns only the single step E1-F1:
the accepted Castle move is not in the list. -/
theorem c7_counterexample :
    c7_game.can_castle E1 H1 = some (Except.ok ⟨E1, G1, H1, F1⟩) ∧
    c7_game.valid_moves_from E1 = some [ChessMove.mkRegular E1 F1] ∧
    ChessMove.castle ⟨E1, G1, H1, F1⟩ ∉ [ChessMove.mkRegular E1 F1] := by
  refine ⟨?_, ?_, ?_⟩ <;> decide

/-- C7: amended -- valid_moves_from never returns a Castle move at all: the
king generator valid_king_moves_from emits only the eight step moves and
never consults can_castle, so even when can_castle would accept a castle,
no move in the returned list is a Castle. -/
theorem c7_valid_moves_never_castle (g : Game) (fi : ChessIndex)
    (ms : List ChessMove) (hv : g.valid_moves_from fi = some ms)
    (m : ChessMove) (hm : m ∈ ms) : m.is_castle = false :=
  Game.valid_moves_from_no_castle g fi ms hv m hm

/-- Witness for C7 in c7_game at the king square E1. -/
theorem c7_valid_moves_never_castle_witness :
    c7_game.can_castle E1 H1 = some (Except.ok ⟨E1, G1, H1, F1⟩) ∧
    (ChessMove.mkRegular E1 F1).is_castle = false :=
  ⟨by decide,
   c7_valid_moves_never_castle c7_game E1 [ChessMove.mkRegular E1 F1]
     (by decide) (ChessMove.mkRegular E1 F1) (by decide)⟩

/-- Counterexample for C8: in c8_game the black king stands on E5, adjacent
to the square E4, so E4 is attacked by a piece of the opponent of white --
yet is_checked reports E4 as not attacked for white. -/
theorem c8_counterexample :
    c8_game.board.piece_at E5 = some ⟨PieceType.king, Color.black, [E5]⟩ ∧
    c8_game.board.piece_at E4 = some ⟨PieceType.king, Color.white, [E4]⟩ ∧
    c8_game.is_checked E4 Color.white = false := by
  refine ⟨?_, ?_, ?_⟩ <;> decide

/-- C8: amended -- the attack detector is incomplete over piece kinds: it
scans for enemy knights, pawns and the sliding pieces on files, ranks and
diagonals, but has no adjacent-king case, so on any board whose enemy
pieces are all kings is_checked returns false for every square. -/
theorem c8_enemy_kings_never_detected (g : Game) (i : ChessIndex) (c : Color)
    (h : Board.enemy_kings_only g.board c = true) :
    g.is_checked i c = false :=
  Game.enemy_kings_only_not_checked g i c h

/-- Witness for C8 in c8_game at the square E4 next to the black king. -/
theorem c8_enemy_kings_never_detected_witness :
    Board.enemy_kings_only c8_game.board Color.white = true ∧
    c8_game.is_checked E4 Color.white = false :=
  ⟨by decide, c8_enemy_kings_never_detected c8_game E4 Color.white (by decide)⟩

/-- Counterexample for C9: in c9_position a white knight stands on E6, and
the white pawn on D5 is still offered the en passant move onto E6 right
after the adjacent double step E7-E5: the en passant generator never looks
at the destination square, so the generated move lands on a piece of the
moving color. -/
theorem c9_counterexample :
    c9_position.map (fun g => g.board.piece_at E6) =
      some (some ⟨PieceType.knight, Color.white, [G1, E6]⟩) ∧
    (c9_position.bind (fun g => g.valid_pawn_moves_from D5 Color.white)) =
      some [ChessMove.mkRegular D5 D6, ChessMove.mkEnPassant D5 E6 E5] := by
  refine ⟨?_, ?_⟩ <;> decide

/-- C9: amended -- every per-kind pseudo-legal generator respects the
destination constraint on its Regular and Promotion moves: no such move
lands on a piece of the moving color (dest_own_free).  En passant moves
carry no destination guarantee, which is why the constraint is stated
through dest_own_free rather than for every move. -/
theorem c9_generators_respect_destination (g : Game) (fi : ChessIndex)
    (color : Color) (m : ChessMove)
    (hm : m ∈ g.valid_knight_moves_from fi color ∨
          m ∈ g.valid_king_moves_from fi color ∨
          m ∈ g.valid_bishop_moves_from fi color ∨
          m ∈ g.valid_rook_moves_from fi color ∨
          m ∈ g.valid_queen_moves_from fi color ∨
          ∃ L, g.valid_pawn_moves_from fi color = some L ∧ m ∈ L) :
    m.dest_own_free g.board color = true := by
  rcases hm with h | h | h | h | h | ⟨L, hL, h⟩
  · exact Game.valid_knight_moves_dest g fi color m h
  · exact Game.valid_king_moves_dest g fi color m h
  · exact Game.valid_bishop_moves_dest g fi color m h
  · exact Game.valid_rook_moves_dest g fi color m h
  · exact Game.valid_queen_moves_dest g fi color m h
  · exact Game.valid_pawn_moves_dest g fi color L hL m h

/-- Witness for C9 at the initial position with the knight move B1-C3. -/
theorem c9_generators_respect_destination_witness :
    ChessMove.mkRegular B1 C3 ∈
      Game.mkDefault.valid_knight_moves_from B1 Color.white ∧
    ChessMove.dest_own_free Game.mkDefault.board Color.white
      (ChessMove.mkRegular B1 C3) = true :=
  ⟨by decide,
   c9_generators_respect_destination Game.mkDefault B1 Color.white
     (ChessMove.mkRegular B1 C3) (Or.inl (by decide))⟩

/-- C10: coordinate parsing succeeds exactly on the two-byte strings whose
first byte is a file letter a-h in either case and whose second byte is a
rank digit 1-8; any other length fails with LengthNot2, a two-byte string
with a bad first byte fails with InvalidFile carrying that character (the
file position), and a two-byte string with a good file letter but a bad
second byte fails with InvalidRank carrying that character (the rank
position). -/
theorem c10_from_str_characterisation (s : List Nat) :
    ((∃ ci, ChessIndex.from_str s = Except.ok ci) ↔
      ∃ b0 b1, s = [b0, b1] ∧ b0 ∈ fileLetterBytes ∧ b1 ∈ rankDigitBytes) ∧
    (s.length ≠ 2 →
      ChessIndex.from_str s = Except.error ParseChessIndexError.lengthNot2) ∧
    (∀ b0 b1, s = [b0, b1] → b0 ∉ fileLetterBytes →
      ChessIndex.from_str s = Except.error
        (ParseChessIndexError.invalidFile (Char.ofNat b0))) ∧
    (∀ b0 b1, s = [b0, b1] → b0 ∈ fileLetterBytes → b1 ∉ rankDigitBytes →
      ChessIndex.from_str s = Except.error
        (ParseChessIndexError.invalidRank (Char.ofNat b1))) :=
  chess_index_from_str_spec s

/-- Witness for C10 on the byte strings e2, e25, x2 and e9. -/
theorem c10_from_str_characterisation_witness :
    (∃ ci, ChessIndex.from_str [101, 50] = Except.ok ci) ∧
    ChessIndex.from_str [101, 50, 51] =
      Except.error ParseChessIndexError.lengthNot2 ∧
    ChessIndex.from_str [120, 50] =
      Except.error (ParseChessIndexError.invalidFile (Char.ofNat 120)) ∧
    ChessIndex.from_str [101, 57] =
      Except.error (ParseChessIndexError.invalidRank (Char.ofNat 57)) :=
  ⟨(c10_from_str_characterisation [101, 50]).1.mpr
      ⟨101, 50, rfl, by decide, by decide⟩,
   (c10_from_str_characterisation [101, 50, 51]).2.1 (by decide),
   (c10_from_str_characterisation [120, 50]).2.2.1 120 50 rfl (by decide),
   (c10_from_str_characterisation [101, 57]).2.2.2 101 57 rfl (by decide)
     (by decide)⟩
